import Mathlib

/-!
# smallBash (`src/main.c`): a shallow embedding and its checked properties

C strings are modelled as `List Char` (the characters before the terminating
NUL), a `char*` that may be `NULL` as `Option CStr`.  Every call into the
operating system (reading a line, `fork`, `waitpid`, `open`) takes its result
from an explicit environment record, and every observable effect of the shell
is recorded in a list of `Event`s.  Where the C code would run into undefined
behaviour (a `NULL` handed to `strdup` or `strcmp`, a store outside an array,
a `sprintf` directive without an argument) the model returns `none`.  A
`printf`-style report is recorded as the call the code makes, format and
arguments; `printf_args_fit` tells whether the arguments fit the directives.
-/

namespace SmallBash

/-! ## Constants of `main.c` and of the platform headers -/

/-- A C string: the characters before the terminating NUL. -/
abbrev CStr := List Char

/-- Constant `MAX_CHARS_INPUT` of `main.c`. -/
def MAX_CHARS_INPUT : Nat := 2048

/-- Constant `MAX_ARGS` of `main.c`. -/
def MAX_ARGS : Nat := 512

/-- Signal number of `SIGHUP` in `<signal.h>` (Linux). -/
def SIGHUP : Int := 1

/-- Signal number of `SIGINT` in `<signal.h>` (Linux). -/
def SIGINT : Int := 2

/-- Signal number of `SIGKILL` in `<signal.h>` (Linux). -/
def SIGKILL : Int := 9

/-- Signal number of `SIGTERM` in `<signal.h>` (Linux). -/
def SIGTERM : Int := 15

/-- Signal number of `SIGSTOP` in `<signal.h>` (Linux). -/
def SIGSTOP : Int := 19

/-- Signal number of `SIGTSTP` in `<signal.h>` (Linux). -/
def SIGTSTP : Int := 20

/-- Largest signal number the kernel accepts (`_NSIG - 1`). -/
def SIGMAX : Int := 64

/-- Constant `EXIT_SUCCESS` of `<stdlib.h>`. -/
def EXIT_SUCCESS : Int := 0

/-! ## Signal dispositions -/

/-- What a process does on delivery of a signal: the `sa_handler` of its
`struct sigaction`. -/
inductive Disposition where
  | SIG_DFL
  | SIG_IGN
  | handler_SIGTSTP
  deriving DecidableEq, Repr

/-- The macro `SIG_IGN` is `((__sighandler_t) 1)`; where an `int` is expected
the pointer is converted to the integer 1. -/
def SIG_IGN_as_int : Int := 1

/-- The disposition table of a process, indexed by signal number. -/
abbrev SigTable := Int → Disposition

/-- Model of `sigaction(signum, &act, NULL)`: installs `act` for `signum`; an
invalid signal number, `SIGKILL` or `SIGSTOP` make the call fail with `EINVAL`
and leave the table as it was. -/
def sigaction (signum : Int) (act : Disposition) (tbl : SigTable) : SigTable :=
  if 1 ≤ signum ∧ signum ≤ SIGMAX ∧ signum ≠ SIGKILL ∧ signum ≠ SIGSTOP then
    fun s => if s = signum then act else tbl s
  else tbl

/-- The signal set-up at the top of `main` (lines 633-645): the first call
passes `SIG_IGN` where the signal number belongs. -/
def main_signal_setup (tbl : SigTable) : SigTable :=
  let tbl1 := sigaction SIG_IGN_as_int Disposition.SIG_IGN tbl
  sigaction SIGTSTP Disposition.handler_SIGTSTP tbl1

/-- The signal set-up of a forked child (lines 716-723): a foreground child
sets `SIGINT` back to the default. -/
def child_signal_setup (is_background_process : Int) (tbl : SigTable) : SigTable :=
  if is_background_process = 0 then sigaction SIGINT Disposition.SIG_DFL tbl else tbl

/-! ## The `Commands` record and the observable effects -/

/-- The struct `Commands` of `main.c`.  `inputArgs` and `background_processes`
are the two arrays of `MAX_ARGS` entries; an index at or past `MAX_ARGS` is
outside the array and is never read or written by the model. -/
structure Commands where
  exitStatus : Bool
  is_background_process : Int
  numArgs : Nat
  background_processes : Nat → Int
  bg_procs_count : Nat
  inputArgs : Nat → Option CStr
  processStatus : Nat

/-- An argument handed to a `printf`-style call: an integer for `%d`, a
`char*` (possibly `NULL`) for `%s`. -/
inductive Arg where
  | int (i : Int)
  | str (s : Option CStr)
  deriving DecidableEq, Repr

/-- The observable effects of the shell and of its children, in program
order.  `printf` and `fprintf_stderr` keep the format string of the source and
the values passed for its directives. -/
inductive Event where
  | write (fd : Nat) (buf : CStr) (count : Nat)
  | printf (fmt : String) (args : List Arg)
  | fprintf_stderr (fmt : String) (args : List Arg)
  | perror (msg : String)
  | fork (ret : Int)
  | kill (pid : Int) (sig : Int)
  | waitpid (pid : Int) (wnohang : Bool) (ret : Int)
  | sigaction (signum : Int) (act : Disposition)
  | open_file (path : Option CStr) (fd : Int)
  | dup2 (oldfd : Int) (newfd : Int)
  | close (fd : Int)
  | chdir (path : Option CStr)
  | execvp (file : Option CStr) (argv : List CStr)
  | exit (status : Int)
  deriving DecidableEq, Repr

/-- Store `v` at index `i` of an array. -/
def setAt {α : Type} (a : Nat → α) (i : Nat) (v : α) : Nat → α :=
  fun j => if j = i then v else a j

/-- Function `init_Commands_List`: the five scalar members get their starting
values; the two arrays keep whatever the allocation held. -/
def init_Commands_List (c : Commands) : Commands :=
  { c with numArgs := 0, is_background_process := 0, exitStatus := false,
           bg_procs_count := 0, processStatus := 0 }

/-! ## Wait-status macros of `<sys/wait.h>` (glibc) -/

/-- Macro `WTERMSIG(status)`: `status & 0x7f`. -/
def WTERMSIG (status : Nat) : Nat := status &&& 0x7f

/-- Macro `WEXITSTATUS(status)`: `(status & 0xff00) >> 8`. -/
def WEXITSTATUS (status : Nat) : Nat := (status &&& 0xff00) >>> 8

/-- Macro `WIFEXITED(status)`: `WTERMSIG(status) == 0`. -/
def WIFEXITED (status : Nat) : Bool := WTERMSIG status == 0

/-- Conversion of a value in `0..255` to `signed char`. -/
def to_signed_char (x : Nat) : Int :=
  if x % 256 < 128 then ((x % 256 : Nat) : Int) else ((x % 256 : Nat) : Int) - 256

/-- Macro `WIFSIGNALED(status)`:
`((signed char) ((status & 0x7f) + 1) >> 1) > 0`. -/
def WIFSIGNALED (status : Nat) : Bool :=
  decide ((to_signed_char ((status &&& 0x7f) + 1)) >>> 1 > 0)

/-- Macro `WCOREFLAG`: the bit a core dump sets in the status word. -/
def WCOREFLAG : Nat := 0x80

/-! ## `handler_SIGTSTP` -/

/-- Function `handler_SIGTSTP`: flips `foreground_only_mode` and writes the
notice with `write(STDOUT_FILENO, fgModeMsg, n)`. -/
def handler_SIGTSTP (foreground_only_mode : Bool) : Bool × List Event :=
  if foreground_only_mode = false then
    (true, [Event.write 1 "\nEntering foreground-only mode (& is now ignored)\n".toList 52])
  else
    (false, [Event.write 1 "\nExiting foreground-only mode \n".toList 32])

/-! ## `kill_background_processes` and the `exit` built-in -/

/-- The `while (i < cmds->bg_procs_count)` loop of `kill_background_processes`,
started at index `i`; the first argument bounds the number of iterations.  A
read of `background_processes[i]` with `i` outside the array has no defined
result. -/
def kill_loop (c : Commands) : Nat → Nat → Option (List Event)
  | 0, i => if i < c.bg_procs_count then none else some []
  | fuel + 1, i =>
    if i < c.bg_procs_count then
      if i < MAX_ARGS then
        match kill_loop c fuel (i + 1) with
        | none => none
        | some rest => some (Event.kill (c.background_processes i) SIGTERM :: rest)
      else none
    else some []

/-- Function `kill_background_processes`. -/
def kill_background_processes (c : Commands) : Option (List Event) :=
  kill_loop c c.bg_procs_count 0

/-- Size of a `char*` in bytes (64-bit platform). -/
def POINTER_SIZE : Nat := 8

/-- Function `delete_commands`: entries `0..numArgs` are freed and set to
`NULL`, then `memset` clears the first `MAX_ARGS` bytes of the array. -/
def delete_commands (c : Commands) : Commands :=
  { c with inputArgs := fun i =>
      if i ≤ c.numArgs ∨ i < MAX_ARGS / POINTER_SIZE then none else c.inputArgs i }

/-- Function `reset_inputArgs`: as `delete_commands`, and `numArgs` is set
to 0. -/
def reset_inputArgs (c : Commands) : Commands :=
  { c with numArgs := 0, inputArgs := fun i =>
      if i ≤ c.numArgs ∨ i < MAX_ARGS / POINTER_SIZE then none else c.inputArgs i }

/-- The `exit` branch of `main` (lines 682-695): `delete_commands`,
`kill_background_processes`, then `exit(EXIT_SUCCESS)`. -/
def exit_builtin (c : Commands) : Option (List Event) :=
  let c1 := { c with exitStatus := true }
  let c2 := delete_commands c1
  match kill_background_processes c2 with
  | none => none
  | some kills => some (kills ++ [Event.exit EXIT_SUCCESS])

/-! ## `check_status` -/

/-- Function `check_status`. -/
def check_status (c : Commands) : List Event :=
  if WIFEXITED c.processStatus then
    [Event.printf "exit value %d \n" [Arg.int (WEXITSTATUS c.processStatus)]]
  else
    [Event.printf "terminated by signal %d\n" [Arg.int c.processStatus]]

/-! ## C library functions used by `get_user_input` -/

/-- Model of `fgets(buf, size, stdin)` on the pending input: at most `n`
characters are stored, reading stops after the first newline, which is
stored too.  At end of input nothing is stored and the zeroed buffer holds
the empty string. -/
def fgets_chars : Nat → CStr → CStr
  | 0, _ => []
  | _ + 1, [] => []
  | n + 1, ch :: rest => if ch = '\n' then [ch] else ch :: fgets_chars n rest

/-- Model of `fgets(inputBuffer, size, stdin)`. -/
def fgets (size : Nat) (stdin : CStr) : CStr := fgets_chars (size - 1) stdin

/-- Model of one `strtok` call with the delimiter set `delim` on the text the
saved pointer refers to: leading delimiters are skipped; when nothing is left
the call returns `NULL` (`none`); otherwise it returns the token up to the next
delimiter and the text after that delimiter, where the next call resumes. -/
def strtok (delim : List Char) (s : CStr) : Option (CStr × CStr) :=
  match s.dropWhile (fun ch => delim.contains ch) with
  | [] => none
  | ch :: rest =>
    some ((ch :: rest).takeWhile (fun x => !delim.contains x),
          ((ch :: rest).dropWhile (fun x => !delim.contains x)).drop 1)

/-- The string `inputBuffer` holds after `strtok(inputBuffer, "\n")` (line
408): the call overwrites the first newline after the token it finds with NUL,
and changes nothing when it finds no token. -/
def strip_newline (inputBuffer : CStr) : CStr :=
  match strtok ['\n'] inputBuffer with
  | none => inputBuffer
  | some (token, _) => inputBuffer.takeWhile (fun ch => ch == '\n') ++ token

/-- Test `strncmp(s, t, 1) == 0` for a non-empty `t`: the first characters
agree. -/
def strncmp1_eq (s t : CStr) : Bool := s.head? == t.head?

/-- Whether `needle` stands at the start of `hay`. -/
def starts_with : CStr → CStr → Bool
  | [], _ => true
  | _ :: _, [] => false
  | a :: as, b :: bs => a == b && starts_with as bs

/-- Model of `strstr(hay, needle)`: the text from the first occurrence of
`needle` on, `none` for `NULL`. -/
def strstr (hay needle : CStr) : Option CStr :=
  match hay with
  | [] => if starts_with needle [] then some [] else none
  | ch :: rest => if starts_with needle (ch :: rest) then some (ch :: rest) else strstr rest needle

/-- Conversion `%d` of `printf`. -/
def fmt_d (i : Int) : CStr :=
  if i < 0 then '-' :: Nat.toDigits 10 i.natAbs else Nat.toDigits 10 i.toNat

/-- Model of `sprintf(out, format, args...)` with `int` arguments, for the
directives `%d` and `%%`; ordinary characters are copied.  Any other directive,
and a `%d` for which no argument is left, has no result in this model (the
latter is undefined behaviour in C). -/
def sprintf : CStr → List Int → Option CStr
  | [], _ => some []
  | ch :: rest, args =>
    if ch = '%' then
      match rest, args with
      | '%' :: rest2, args2 => (sprintf rest2 args2).map (fun out => '%' :: out)
      | 'd' :: rest2, a :: args2 => (sprintf rest2 args2).map (fun out => fmt_d a ++ out)
      | _, _ => none
    else (sprintf rest args).map (fun out => ch :: out)

/-- The loop of `expand_variable` (lines 340-354): every `$$` found by
`strstr`, searching on from behind the previous match, is overwritten
with `%d`. -/
def expand_variable_loop : CStr → CStr
  | '$' :: '$' :: rest => '%' :: 'd' :: expand_variable_loop rest
  | ch :: rest => ch :: expand_variable_loop rest
  | [] => []

/-- Function `expand_variable`: the rewritten copy is the format string of
`sprintf(inputBuffer, string, getpid())`; the result has to fit
`inputBuffer`. -/
def expand_variable (inputBuffer : CStr) (pid : Int) : Option CStr :=
  match sprintf (expand_variable_loop inputBuffer) [pid] with
  | none => none
  | some out => if out.length < MAX_CHARS_INPUT then some out else none

/-- Lines 406-417 of `get_user_input`: the text that is tokenized. -/
def get_user_input_text (pid : Int) (stdin : CStr) : Option CStr :=
  let inputBuffer := strip_newline (fgets MAX_CHARS_INPUT stdin)
  if (strstr inputBuffer "$$".toList).isSome then expand_variable inputBuffer pid
  else some inputBuffer

/-! ## `get_user_input` -/

/-- The `while (token != NULL)` loop of `get_user_input` (lines 430-437): the
token is stored at `inputArgs[arg_count]`, a store outside the array has no
defined result.  The first argument bounds the number of iterations. -/
def token_loop : Nat → (Nat → Option CStr) → Nat → CStr → CStr →
    Option ((Nat → Option CStr) × Nat)
  | 0, _, _, _, _ => none
  | fuel + 1, inputArgs, arg_count, token, save =>
    if arg_count < MAX_ARGS then
      match strtok [' ', '\n'] save with
      | none => some (setAt inputArgs arg_count (some token), arg_count + 1)
      | some (token2, save2) =>
        token_loop fuel (setAt inputArgs arg_count (some token)) (arg_count + 1) token2 save2
    else none

/-- Lines 406-447 of `get_user_input`: read, expand and tokenize.  A `NULL`
first token is handed to `strdup`, which has no defined result. -/
def get_user_input_tokens (pid : Int) (stdin : CStr) (c : Commands) : Option Commands :=
  match get_user_input_text pid stdin with
  | none => none
  | some text =>
    match strtok [' '] text with
    | none => none
    | some (token, save) =>
      match token_loop (MAX_ARGS + 1) (setAt c.inputArgs 0 (some token)) 0 token save with
      | none => none
      | some (inputArgs, arg_count) =>
        if arg_count + 1 < MAX_ARGS then
          some { c with inputArgs := setAt inputArgs (arg_count + 1) none,
                        numArgs := arg_count }
        else none

/-- Lines 450-471 of `get_user_input`: a last token `&` is removed, and sets
`is_background_process` according to `foreground_only_mode`. -/
def get_user_input_amp (foreground_only_mode : Bool) (c : Commands) : Option Commands :=
  let num := c.numArgs
  if num = 0 then none
  else
    match c.inputArgs (num - 1) with
    | none => none
    | some last =>
      if last = "&".toList then
        if foreground_only_mode = false then
          some { c with inputArgs := setAt c.inputArgs (num - 1) none,
                        numArgs := num - 1, is_background_process := 1 }
        else
          some { c with inputArgs := setAt c.inputArgs (num - 1) none,
                        numArgs := num - 1, is_background_process := 0 }
      else some c

/-- Function `get_user_input`. -/
def get_user_input (foreground_only_mode : Bool) (pid : Int) (stdin : CStr)
    (c : Commands) : Option Commands :=
  match get_user_input_tokens pid stdin c with
  | none => none
  | some c1 => get_user_input_amp foreground_only_mode c1

/-- The two resets at the top of the `while (1)` body of `main` (lines
656-658). -/
def loop_reset (c : Commands) : Commands :=
  { c with numArgs := 0, is_background_process := 0 }

/-! ## The built-in dispatch of `main` -/

/-- The branch the `if`/`else if` chain of `main` (lines 671-704) takes. -/
inductive Action where
  | noop
  | status
  | exit
  | cd
  | fork
  deriving DecidableEq, Repr

/-- The conditions of the chain at lines 671-700, in order; `strcmp(a, b) == 0`
is equality of the two strings. -/
def dispatch (c : Commands) : Action :=
  match c.inputArgs 0 with
  | none => Action.noop
  | some arg0 =>
    if strncmp1_eq arg0 "#".toList then Action.noop
    else if arg0 = "status".toList then Action.status
    else if arg0 = "exit".toList then Action.exit
    else if arg0 = "cd".toList then Action.cd
    else Action.fork

/-! ## `exec_other_commands` -/

/-- What one loop iteration of the shell, or the child it forks, takes from
the operating system. -/
structure Env where
  /-- Value of the global `foreground_only_mode` when the line is parsed. -/
  foreground_only_mode : Bool
  /-- Result of `getpid()`. -/
  getpid : Int
  /-- The pending standard input. -/
  stdin : CStr
  /-- Result of `fork()`: negative on failure, 0 in the child, the pid of the
  child in the parent. -/
  fork_ret : Int
  /-- Status stored by the blocking `waitpid` on the foreground child; `none`
  when the call fails and stores nothing. -/
  wait_fg : Option Nat
  /-- Status stored by the `WNOHANG` `waitpid` right after a background
  launch; `none` when the child has not changed state yet. -/
  wait_bg : Option Nat
  /-- Results `(pid, status)` of the successive `waitpid(-1, .., WNOHANG)`
  calls of the sweep that found a terminated child. -/
  reaped : List (Int × Nat)
  /-- Result of `getcwd` on entry of `cd_command`. -/
  cwd : CStr
  /-- Result of `getenv("HOME")`. -/
  home : Option CStr
  /-- Result of `getcwd` after the `chdir`. -/
  cwd_after : CStr
  /-- The indeterminate value of the local `fileDescriptor` on entry of
  `exec_other_commands`. -/
  uninit_fd : Int
  /-- Result of the `n`-th `open` call of the child on a path: a descriptor,
  or -1. -/
  open_result : Nat → CStr → Int
  /-- Whether `execvp` fails and returns. -/
  execvp_fails : Bool

/-- Model of `open(path, ...)` as the `n`-th `open` of the process: a `NULL`
path fails. -/
def c_open (env : Env) (n : Nat) (path : Option CStr) : Int :=
  match path with
  | none => -1
  | some p => env.open_result n p

/-- The locals of `exec_other_commands`, the argument array, the number of
`open` calls made and the effects so far. -/
structure RedirState where
  inputArgs : Nat → Option CStr
  redirection_flag : Int
  fileDescriptor : Int
  opens : Nat
  trace : List Event

/-- Where the child stands: still running, or gone through `exit(1)`. -/
inductive Progress where
  | running (s : RedirState)
  | exited (trace : List Event)

/-- The `if`/`else if` on the token at index `i` in the loop of
`exec_other_commands` (lines 521-556): `<` and `>` open the path that the
next entry of the array holds. -/
def redirect_open (env : Env) (i : Nat) (s : RedirState) : Option Progress :=
  match s.inputArgs i with
  | none => none
  | some arg =>
    if arg = "<".toList then
      if i + 1 < MAX_ARGS then
        let path := s.inputArgs (i + 1)
        let fd := c_open env s.opens path
        if fd = -1 then
          some (Progress.exited (s.trace ++ [Event.open_file path fd,
            Event.fprintf_stderr "cannot open file %s for input\n" [Arg.str path],
            Event.exit 1]))
        else
          some (Progress.running
            { s with redirection_flag := 1, fileDescriptor := fd, opens := s.opens + 1,
                     trace := s.trace ++ [Event.open_file path fd, Event.dup2 fd 0] })
      else none
    else if arg = ">".toList then
      if i + 1 < MAX_ARGS then
        let path := s.inputArgs (i + 1)
        let fd := c_open env s.opens path
        if fd = -1 then
          some (Progress.exited (s.trace ++ [Event.open_file path fd,
            Event.fprintf_stderr "cannot open %s for output\n" [Arg.int fd],
            Event.exit 1]))
        else
          some (Progress.running
            { s with redirection_flag := 1, fileDescriptor := fd, opens := s.opens + 1,
                     trace := s.trace ++ [Event.open_file path fd, Event.dup2 fd 1] })
      else none
    else some (Progress.running s)

/-- Body of the `for` loop of `exec_other_commands` (lines 518-563) at
index `i`: after the redirection test, `inputArgs[i]` is set to 0 whenever
`redirection_flag` is 1. -/
def redirect_step (env : Env) (i : Nat) (s : RedirState) : Option Progress :=
  match redirect_open env i s with
  | none => none
  | some (Progress.exited t) => some (Progress.exited t)
  | some (Progress.running s1) =>
    if s1.redirection_flag = 1 then
      some (Progress.running { s1 with inputArgs := setAt s1.inputArgs i none })
    else some (Progress.running s1)

/-- The `for (i = 0; i < cmds->numArgs; i++)` loop of `exec_other_commands`
with `n` iterations to go from index `i`. -/
def redirect_loop (env : Env) : Nat → Nat → RedirState → Option Progress
  | 0, _, s => some (Progress.running s)
  | n + 1, i, s =>
    match redirect_step env i s with
    | none => none
    | some (Progress.exited t) => some (Progress.exited t)
    | some (Progress.running s1) => redirect_loop env n (i + 1) s1

/-- Lines 566-586 of `exec_other_commands`: a background command without
redirection gets `/dev/null` on descriptors 0 and 1. -/
def dev_null_step (env : Env) (is_background_process : Int) (s : RedirState) : Progress :=
  if s.redirection_flag = 0 ∧ is_background_process = 1 then
    let fd1 := c_open env s.opens (some "/dev/null".toList)
    if fd1 = -1 then
      Progress.exited (s.trace ++ [Event.open_file (some "/dev/null".toList) fd1,
        Event.fprintf_stderr "cannot open /dev/null for input\n" [], Event.exit 1])
    else
      let fd2 := c_open env (s.opens + 1) (some "/dev/null".toList)
      if fd2 = -1 then
        Progress.exited (s.trace ++ [Event.open_file (some "/dev/null".toList) fd1,
          Event.dup2 fd1 0, Event.open_file (some "/dev/null".toList) fd2,
          Event.fprintf_stderr "cannot open /dev/null for output\n" [], Event.exit 1])
      else
        Progress.running
          { s with fileDescriptor := fd2, opens := s.opens + 2,
                   trace := s.trace ++ [Event.open_file (some "/dev/null".toList) fd1,
                     Event.dup2 fd1 0, Event.open_file (some "/dev/null".toList) fd2,
                     Event.dup2 fd2 1] }
  else Progress.running s

/-- The argument vector `execvp` reads from `inputArgs`: the entries from
index `i` up to the first `NULL`.  The first argument is the number of entries
left in the array; without a `NULL` among them the read runs past the array
and has no defined result. -/
def argv_from (inputArgs : Nat → Option CStr) : Nat → Nat → Option (List CStr)
  | 0, _ => none
  | left + 1, i =>
    match inputArgs i with
    | none => some []
    | some arg => (argv_from inputArgs left (i + 1)).map (fun rest => arg :: rest)

/-- Lines 508-586 of `exec_other_commands`: the redirection loop and the
`/dev/null` step, up to the point where `execvp` is about to be called. -/
def exec_prepare (env : Env) (c : Commands) : Option Progress :=
  let s0 : RedirState :=
    { inputArgs := c.inputArgs, redirection_flag := 0, fileDescriptor := env.uninit_fd,
      opens := 0, trace := [] }
  match redirect_loop env c.numArgs 0 s0 with
  | none => none
  | some (Progress.exited t) => some (Progress.exited t)
  | some (Progress.running s1) => some (dev_null_step env c.is_background_process s1)

/-- What follows a call of `execvp` (lines 595-600): when the call returns,
the report and `exit(1)`; a `NULL` file name always makes it return. -/
def after_execvp (env : Env) (file : Option CStr) : List Event :=
  if env.execvp_fails ∨ file = none then
    [Event.fprintf_stderr "%s: no such file or directory\n" [Arg.str file], Event.exit 1]
  else []

/-- Function `exec_other_commands`: the effects of the child up to the point
where `execvp` replaces its image, or up to its `exit(1)`. -/
def exec_other_commands (env : Env) (c : Commands) : Option (List Event) :=
  match exec_prepare env c with
  | none => none
  | some (Progress.exited t) => some t
  | some (Progress.running s2) =>
    match argv_from s2.inputArgs MAX_ARGS 0 with
    | none => none
    | some argv =>
      some (s2.trace ++ [Event.close s2.fileDescriptor, Event.execvp (s2.inputArgs 0) argv]
        ++ after_execvp env (s2.inputArgs 0))

/-! ## The loop of `main` -/

/-- Function `cd_command`. -/
def cd_command (env : Env) (c : Commands) : Option (List Event) :=
  let num := c.numArgs
  if num ≠ 1 ∧ num > 1 then
    match c.inputArgs (num - 1) with
    | none => none
    | some targetPath =>
      let path := env.cwd ++ "/".toList ++ targetPath
      if path.length < MAX_CHARS_INPUT then
        some [Event.chdir (some path), Event.printf "%s\n" [Arg.str (some env.cwd_after)]]
      else none
  else
    some [Event.chdir env.home, Event.printf "%s\n" [Arg.str (some env.cwd_after)]]

/-- The child branch of `main` (lines 716-726). -/
def child_branch (env : Env) (c : Commands) : Option (List Event) :=
  match exec_other_commands env c with
  | none => none
  | some t =>
    if c.is_background_process = 0 then
      some (Event.sigaction SIGINT Disposition.SIG_DFL :: t)
    else some t

/-- The foreground part of the parent branch (lines 730-739): the blocking
`waitpid` stores the status of the child in `processStatus`. -/
def parent_foreground (env : Env) (c : Commands) : Commands × List Event :=
  if c.is_background_process = 0 then
    let c1 : Commands :=
      match env.wait_fg with
      | none => c
      | some w => { c with processStatus := w }
    let ret : Int :=
      match env.wait_fg with
      | none => -1
      | some _ => env.fork_ret
    if WIFSIGNALED c1.processStatus then
      (c1, [Event.waitpid env.fork_ret false ret,
            Event.printf "terminated by signal %d\n" [Arg.int c1.processStatus]])
    else (c1, [Event.waitpid env.fork_ret false ret])
  else (c, [])

/-- The background part of the parent branch (lines 741-751): `pid` is the
value the foreground part left in the variable.  A store outside
`background_processes` has no defined result. -/
def parent_background (env : Env) (pid : Int) (c : Commands) : Option (Commands × List Event) :=
  if c.is_background_process = 1 then
    if c.bg_procs_count < MAX_ARGS then
      let c1 : Commands :=
        match env.wait_bg with
        | none => c
        | some w => { c with processStatus := w }
      let ret : Int :=
        match env.wait_bg with
        | none => 0
        | some _ => pid
      some ({ c1 with background_processes := setAt c1.background_processes c1.bg_procs_count pid,
                      bg_procs_count := c1.bg_procs_count + 1 },
            [Event.waitpid pid true ret, Event.printf "background pid is %d\n" [Arg.int pid]])
    else none
  else some (c, [])

/-- The sweep at the end of the loop body (lines 759-774).  Each element of
the list is the result of one `waitpid(-1, &processStatus, WNOHANG)` call; when
the list is used up the call finds no terminated child, returns 0 and stores
nothing. -/
def reap_loop (c : Commands) : List (Int × Nat) → Commands × List Event
  | [] => (c, [Event.waitpid (-1) true 0])
  | (pid, w) :: rest =>
    if pid > 0 then
      let c1 : Commands := { c with processStatus := w }
      let report : Event :=
        if WIFEXITED c1.processStatus != false ∧ pid > 0 then
          Event.printf "background pid %d is done: exit value %d\n"
            [Arg.int pid, Arg.int c1.processStatus]
        else
          Event.printf "background pid %d is done: terminated by signal %d\n"
            [Arg.int pid, Arg.int c1.processStatus]
      ((reap_loop c1 rest).1, Event.waitpid (-1) true pid :: report :: (reap_loop c1 rest).2)
    else (c, [Event.waitpid (-1) true pid])

/-- How one pass through the body of `while (1)` ends for the process. -/
inductive Outcome where
  | next (c : Commands)
  | exited (status : Int)
  | replaced
  | left_loop (c : Commands)

/-- Lines 755-774: `reset_inputArgs`, then the sweep. -/
def end_of_iteration (env : Env) (c : Commands) (trace : List Event) :
    Outcome × List Event :=
  let r := reap_loop (reset_inputArgs c) env.reaped
  (Outcome.next r.1, trace ++ r.2)

/-- One pass through the body of `while (1)` in `main` (lines 656-774),
together with the child branch when `fork` returns 0. -/
def main_iteration (env : Env) (c0 : Commands) : Option (Outcome × List Event) :=
  let prompt : List Event := [Event.write 1 ": ".toList 2]
  match get_user_input env.foreground_only_mode env.getpid env.stdin (loop_reset c0) with
  | none => none
  | some c =>
    match dispatch c with
    | Action.noop => some (end_of_iteration env c prompt)
    | Action.status => some (end_of_iteration env c (prompt ++ check_status c))
    | Action.exit =>
      match exit_builtin c with
      | none => none
      | some t => some (Outcome.exited EXIT_SUCCESS, prompt ++ t)
    | Action.cd =>
      match cd_command env c with
      | none => none
      | some t => some (end_of_iteration env c (prompt ++ t))
    | Action.fork =>
      if env.fork_ret < 0 then
        match kill_background_processes c with
        | none => none
        | some kills =>
          some (Outcome.left_loop { c with processStatus := 1 },
                prompt ++ [Event.fork env.fork_ret, Event.perror "Error!/n"] ++ kills)
      else if env.fork_ret = 0 then
        match child_branch env c with
        | none => none
        | some t =>
          if t.getLast? = some (Event.exit 1) then
            some (Outcome.exited 1, prompt ++ [Event.fork env.fork_ret] ++ t)
          else some (Outcome.replaced, prompt ++ [Event.fork env.fork_ret] ++ t)
      else
        let fg := parent_foreground env c
        let pid : Int :=
          if c.is_background_process = 0 then
            (match env.wait_fg with
             | none => -1
             | some _ => env.fork_ret)
          else env.fork_ret
        match parent_background env pid fg.1 with
        | none => none
        | some bg =>
          some (end_of_iteration env bg.1
            (prompt ++ [Event.fork env.fork_ret] ++ fg.2 ++ bg.2))

/-- The start-up of `main` (lines 647-653) for the shell state. -/
def main_init (alloc : Commands) : Commands := init_Commands_List alloc

/-- A run of the loop of `main` over successive environments, one per line
read: the state after the last of them and all effects, as long as every
pass ends with the loop going on. -/
def run_lines : List Env → Commands → Option (Commands × List Event)
  | [], c => some (c, [])
  | env :: envs, c =>
    match main_iteration env c with
    | some (Outcome.next c1, t) =>
      (match run_lines envs c1 with
       | none => none
       | some (c2, t2) => some (c2, t ++ t2))
    | _ => none

/-! ## Statements of the specification, and sample inputs -/

/-- Stated from the specification (not from the code): the line with every
`$$`, taken left to right without overlap, replaced by the decimal digits of
the process id, every other character unchanged. -/
def spec_substitute_pid (pid : Int) : CStr → CStr
  | '$' :: '$' :: rest => fmt_d pid ++ spec_substitute_pid pid rest
  | ch :: rest => ch :: spec_substitute_pid pid rest
  | [] => []

/-- Whether a token is one of the redirection operators `<` and `>`. -/
def is_redirect_operator (token : CStr) : Bool :=
  decide (token = "<".toList) || decide (token = ">".toList)

/-- Stated from the specification (not from the code): the tokens without
every `<` and `>` operator token and without the path token following each
operator. -/
def spec_strip_redirections : List CStr → List CStr
  | [] => []
  | [token] => if is_redirect_operator token then [] else [token]
  | token :: path :: rest =>
    if is_redirect_operator token then spec_strip_redirections rest
    else token :: spec_strip_redirections (path :: rest)

/-- The tokens without a trailing `&`. -/
def strip_trailing_amp (tokens : List CStr) : List CStr :=
  if tokens.getLast? = some "&".toList then tokens.dropLast else tokens

/-- Stated from the specification (not from the code): the argument vector
of a tokenized line. -/
def spec_argv (tokens : List CStr) : List CStr :=
  spec_strip_redirections (strip_trailing_amp tokens)

/-- The entries `0 .. n-1` of an argument array. -/
def args_upto (inputArgs : Nat → Option CStr) (n : Nat) : List (Option CStr) :=
  (List.range n).map inputArgs

/-- A zero-filled allocation for the `Commands` struct. -/
def zeroed_alloc : Commands :=
  { exitStatus := false, is_background_process := 0, numArgs := 0,
    background_processes := fun _ => 0, bg_procs_count := 0,
    inputArgs := fun _ => none, processStatus := 0 }

/-- The shell state when the loop of `main` is entered. -/
def shell_start : Commands := main_init zeroed_alloc

/-- A sample environment: shell pid 42, `fork` returns 100 to the parent, the
foreground child exits with code 0, nothing else terminates, every `open`
succeeds with the next free descriptor, `execvp` succeeds. -/
def sample_env (stdin : CStr) : Env :=
  { foreground_only_mode := false, getpid := 42, stdin := stdin, fork_ret := 100,
    wait_fg := some 0, wait_bg := none, reaped := [], cwd := "/tmp".toList,
    home := some "/root".toList, cwd_after := "/tmp".toList, uninit_fd := 0,
    open_result := fun n _ => 3 + (n : Int), execvp_fails := false }

/-- A sample state with two recorded background children, 200 and 201. -/
def shell_two_jobs : Commands :=
  { shell_start with
    background_processes := setAt (setAt shell_start.background_processes 0 200) 1 201,
    bg_procs_count := 2 }

/-- The disposition table of a process started with every signal at its
default. -/
def default_table : SigTable := fun _ => Disposition.SIG_DFL

/-- Whether an event is a call of `fork`. -/
def is_fork : Event → Bool
  | Event.fork _ => true
  | _ => false

/-- Whether an event is a call of `waitpid`. -/
def is_waitpid : Event → Bool
  | Event.waitpid _ _ _ => true
  | _ => false

/-- Whether an event is a blocking call of `waitpid`. -/
def is_blocking_wait : Event → Bool
  | Event.waitpid _ false _ => true
  | _ => false

/-- The record `get_user_input_tokens` produces from the line `sleep 5 &` in
the state `shell_start`. -/
def sample_tokenized : Commands :=
  { loop_reset shell_start with
    numArgs := 3,
    inputArgs := setAt (setAt (setAt (setAt (setAt shell_start.inputArgs
      0 (some "sleep".toList)) 0 (some "sleep".toList)) 1 (some "5".toList))
      2 (some "&".toList)) 4 none }

/-- A record holding the tokens of the line `wc -l < in &` after
tokenization. -/
def sample_redirect : Commands :=
  { loop_reset shell_start with
    numArgs := 5,
    inputArgs := fun i => ["wc".toList, "-l".toList, "<".toList, "in".toList, "&".toList][i]? }

/-- Whether the arguments of a `printf`-style call have the types its
directives ask for: `%d` takes an `int`, `%s` a `char*`, `%%` nothing.  A call
that does not fit has undefined behaviour in C. -/
def printf_args_fit : List Char → List Arg → Bool
  | [], _ => true
  | ch :: rest, args =>
    if ch = '%' then
      match rest, args with
      | '%' :: rest2, args2 => printf_args_fit rest2 args2
      | 'd' :: rest2, Arg.int _ :: args2 => printf_args_fit rest2 args2
      | 's' :: rest2, Arg.str _ :: args2 => printf_args_fit rest2 args2
      | _, _ => false
    else printf_args_fit rest args

/-- Whether an event is a report written to the error stream. -/
def is_stderr_report : Event → Bool
  | Event.fprintf_stderr _ _ => true
  | _ => false

/-- Whether an event is a call of `execvp`. -/
def is_execvp : Event → Bool
  | Event.execvp _ _ => true
  | _ => false

/-- Whether an event acts on descriptor 0 or 1: an `open` that returns it, a
`dup2` onto it, or a `close` of it. -/
def touches_std_descriptor : Event → Bool
  | Event.open_file _ fd => decide (fd = 0) || decide (fd = 1)
  | Event.dup2 _ newfd => decide (newfd = 0) || decide (newfd = 1)
  | Event.close fd => decide (fd = 0) || decide (fd = 1)
  | _ => false

/-- A command record holding the given tokens, followed by `NULL`. -/
def record_of (tokens : List CStr) (is_background_process : Int) : Commands :=
  { loop_reset shell_start with
    numArgs := tokens.length,
    is_background_process := is_background_process,
    inputArgs := fun i => tokens[i]? }

/-- An environment in which every `open` fails. -/
def env_open_fails : Env :=
  { sample_env [] with open_result := fun _ _ => -1 }

/-- An environment in which the first `open` succeeds with descriptor 3 and
every later one fails. -/
def env_second_open_fails : Env :=
  { sample_env [] with open_result := fun n _ => if n = 0 then 3 else -1 }

/-- The `String` literal of the notice written on entering foreground-only
mode (line 87). -/
def notice_entering : CStr := "\nEntering foreground-only mode (& is now ignored)\n".toList

/-- The `String` literal of the notice written on leaving foreground-only
mode (line 98). -/
def notice_exiting : CStr := "\nExiting foreground-only mode \n".toList

/-- The byte counts of the `write` calls in a list of events, each with the
length of the string written. -/
def write_counts : List Event → List (Nat × Nat)
  | [] => []
  | Event.write _ buf count :: rest => (count, buf.length) :: write_counts rest
  | _ :: rest => write_counts rest

/-- The environment of a pass that reads `sleep 1 &` and launches it as
child 100. -/
def env_background_launch : Env := sample_env "sleep 1 &\n".toList

/-- The state `shell_two_jobs` at the point where the parent records a third
background child. -/
def shell_two_jobs_launching : Commands :=
  { shell_two_jobs with is_background_process := 1 }

/-! ## Properties -/

/-- C1 (code defect): the signal set-up at the top of `main` passes `SIG_IGN`
in the place of the signal number, so it installs "ignore" for signal 1
(`SIGHUP`) and leaves the disposition of `SIGINT` as the shell inherited it:
in a shell started with default dispositions `SIGINT` is not ignored. -/
theorem C1_setup_leaves_SIGINT_unchanged (tbl : SigTable) :
    main_signal_setup tbl SIGINT = tbl SIGINT ∧
    main_signal_setup tbl SIGHUP = Disposition.SIG_IGN ∧
    main_signal_setup default_table SIGINT = Disposition.SIG_DFL ∧
    main_signal_setup default_table SIGINT ≠ Disposition.SIG_IGN := by
  refine ⟨?_, ?_, ?_, ?_⟩ <;>
    simp [main_signal_setup, sigaction, SIG_IGN_as_int, SIGINT, SIGHUP, SIGTSTP, SIGMAX,
      SIGKILL, SIGSTOP, default_table]

/-- C2 (code defect): the end-of-iteration sweep stores the status of a
reaped background child in `processStatus`.  In the session `false &` (its
child 100 exits with code 1 and is reaped by the sweep) followed by `status`,
no blocking wait is made, `processStatus` goes from 0 to 256 and `status`
prints exit value 1. -/
theorem C2_sweep_overwrites_processStatus :
    shell_start.processStatus = 0 ∧
    (run_lines [{ sample_env "false &\n".toList with reaped := [(100, 256)] },
                sample_env "status\n".toList] shell_start).map
        (fun r => (r.1.processStatus, r.2)) =
      some (256,
        [Event.write 1 ": ".toList 2,
         Event.fork 100,
         Event.waitpid 100 true 0,
         Event.printf "background pid is %d\n" [Arg.int 100],
         Event.waitpid (-1) true 100,
         Event.printf "background pid %d is done: exit value %d\n" [Arg.int 100, Arg.int 256],
         Event.waitpid (-1) true 0,
         Event.write 1 ": ".toList 2,
         Event.printf "exit value %d \n" [Arg.int 1],
         Event.waitpid (-1) true 0]) ∧
    (run_lines [{ sample_env "false &\n".toList with reaped := [(100, 256)] },
                sample_env "status\n".toList] shell_start).map
        (fun r => r.2.any is_blocking_wait) = some false := by
  decide

/-! ### The token loop -/

theorem setAt_same {α : Type} (a : Nat → α) (i : Nat) (v : α) : setAt a i v i = v := by
  simp [setAt]

theorem setAt_other {α : Type} (a : Nat → α) (i j : Nat) (v : α) (h : j ≠ i) :
    setAt a i v j = a j := by
  simp [setAt, h]

/-- What the token loop leaves in the array: it stores a token at every index
from `k` up to the count it returns, and touches nothing else. -/
theorem token_loop_spec (fuel : Nat) :
    ∀ (args : Nat → Option CStr) (k : Nat) (tok save : CStr)
      (args2 : Nat → Option CStr) (n : Nat),
      token_loop fuel args k tok save = some (args2, n) →
      k < n ∧ n ≤ MAX_ARGS ∧ (∀ i, i < k ∨ n ≤ i → args2 i = args i) ∧
      (∀ i, k ≤ i → i < n → (args2 i).isSome = true) := by
  induction fuel with
  | zero => intro args k tok save args2 n h; simp [token_loop] at h
  | succ fuel ih =>
    intro args k tok save args2 n h
    unfold token_loop at h
    by_cases hk : k < MAX_ARGS
    · rw [if_pos hk] at h
      cases hs : strtok [' ', '\n'] save with
      | none =>
        rw [hs] at h
        simp only [Option.some.injEq, Prod.mk.injEq] at h
        obtain ⟨h1, h2⟩ := h
        subst h1; subst h2
        refine ⟨by omega, by omega, ?_, ?_⟩
        · intro i hi
          apply setAt_other
          omega
        · intro i h1 h2
          have : i = k := by omega
          subst this
          simp [setAt_same]
      | some p =>
        obtain ⟨tok2, save2⟩ := p
        rw [hs] at h
        simp only at h
        obtain ⟨h1, h2, h3, h4⟩ := ih _ _ _ _ _ _ h
        refine ⟨by omega, h2, ?_, ?_⟩
        · intro i hi
          rw [h3 i (by omega)]
          apply setAt_other
          omega
        · intro i hi1 hi2
          by_cases hik : i = k
          · subst hik
            rw [h3 i (by omega)]
            simp [setAt_same]
          · exact h4 i (by omega) hi2
    · rw [if_neg hk] at h
      simp at h

/-- The record `get_user_input_tokens` returns: at least one token, every
entry below `numArgs` holds a token, and the background flag is as it was. -/
theorem get_user_input_tokens_spec (pid : Int) (stdin : CStr) (c c1 : Commands)
    (h : get_user_input_tokens pid stdin c = some c1) :
    1 ≤ c1.numArgs ∧ c1.numArgs + 1 < MAX_ARGS ∧
    (∀ i, i < c1.numArgs → (c1.inputArgs i).isSome = true) ∧
    c1.inputArgs (c1.numArgs + 1) = none ∧
    c1.inputArgs c1.numArgs = c.inputArgs c1.numArgs ∧
    c1.is_background_process = c.is_background_process ∧
    c1.background_processes = c.background_processes ∧
    c1.bg_procs_count = c.bg_procs_count ∧
    c1.processStatus = c.processStatus := by
  unfold get_user_input_tokens at h
  cases ht : get_user_input_text pid stdin with
  | none => rw [ht] at h; simp at h
  | some text =>
    rw [ht] at h
    simp only at h
    cases hs : strtok [' '] text with
    | none => rw [hs] at h; simp at h
    | some p =>
      obtain ⟨token, save⟩ := p
      rw [hs] at h
      simp only at h
      cases hl : token_loop (MAX_ARGS + 1) (setAt c.inputArgs 0 (some token)) 0 token save with
      | none => rw [hl] at h; simp at h
      | some q =>
        obtain ⟨args2, n⟩ := q
        rw [hl] at h
        simp only at h
        by_cases hn : n + 1 < MAX_ARGS
        · rw [if_pos hn] at h
          simp only [Option.some.injEq] at h
          subst h
          obtain ⟨h1, _, h3, h4⟩ := token_loop_spec _ _ _ _ _ _ _ hl
          refine ⟨by simpa using h1, hn, ?_, ?_, ?_, rfl, rfl, rfl, rfl⟩
          · intro i hi
            simp only at hi
            simp only
            rw [setAt_other _ _ _ _ (by omega)]
            exact h4 i (by omega) hi
          · simp [setAt_same]
          · simp only
            rw [setAt_other _ _ _ _ (by omega), h3 n (by omega)]
            apply setAt_other
            omega
        · rw [if_neg hn] at h
          simp at h

/-- The bound on the iterations of the token loop is never what stops it:
with any two bounds above `MAX_ARGS - arg_count` the loop gives the same
result, so a missing result always comes from a store outside the array. -/
theorem token_loop_bound_irrelevant (fuel1 : Nat) :
    ∀ (fuel2 : Nat) (args : Nat → Option CStr) (k : Nat) (tok save : CStr),
      MAX_ARGS < fuel1 + k → MAX_ARGS < fuel2 + k →
      token_loop fuel1 args k tok save = token_loop fuel2 args k tok save := by
  induction fuel1 with
  | zero =>
    intro fuel2 args k tok save h1 _
    have hk : ¬ k < MAX_ARGS := by omega
    cases fuel2 with
    | zero => rfl
    | succ f2 => simp [token_loop, hk]
  | succ f1 ih =>
    intro fuel2 args k tok save h1 h2
    cases fuel2 with
    | zero =>
      have hk : ¬ k < MAX_ARGS := by omega
      simp [token_loop, hk]
    | succ f2 =>
      unfold token_loop
      by_cases hk : k < MAX_ARGS
      · rw [if_pos hk, if_pos hk]
        cases hs : strtok [' ', '\n'] save with
        | none => rfl
        | some p =>
          obtain ⟨tok2, save2⟩ := p
          exact ih f2 _ (k + 1) tok2 save2 (by omega) (by omega)
      · rw [if_neg hk, if_neg hk]

/-- A record tokenized into an array that held only `NULL` holds a non-empty
list of tokens at the indices below `numArgs`, followed by `NULL`. -/
theorem tokenized_record_holds_tokens (pid : Int) (stdin : CStr) (c c1 : Commands)
    (hclear : ∀ i, c.inputArgs i = none)
    (h : get_user_input_tokens pid stdin c = some c1) :
    ∃ toks : List CStr, c1.numArgs = toks.length ∧ toks ≠ [] ∧
      toks.length + 1 < MAX_ARGS ∧ ∀ i, i ≤ toks.length → c1.inputArgs i = toks[i]? := by
  obtain ⟨h1, h2, h3, _, h5, _⟩ := get_user_input_tokens_spec pid stdin c c1 h
  refine ⟨(List.range c1.numArgs).map (fun i => (c1.inputArgs i).getD []), ?_, ?_, ?_, ?_⟩
  · simp
  · intro hnil
    have := congrArg List.length hnil
    simp at this
    omega
  · simpa using h2
  · intro i hi
    simp only [List.length_map, List.length_range] at hi
    rw [List.getElem?_map]
    by_cases hlt : i < c1.numArgs
    · rw [List.getElem?_range hlt]
      have := h3 i hlt
      cases hv : c1.inputArgs i with
      | none => rw [hv] at this; simp at this
      | some v => simp [hv]
    · have hi2 : i = c1.numArgs := by omega
      subst hi2
      rw [h5, hclear, List.getElem?_eq_none (by simp)]
      rfl

/-- C3: for every line that `get_user_input` tokenizes into a non-empty token
list, and either value of `foreground_only_mode`, `get_user_input` returns a
record in which `is_background_process` is 1 exactly when the last token is
`&` and foreground-only mode is off; a last token `&` is removed in either
mode (its entry is cleared, `numArgs` is one less, all other entries stay);
any other last token leaves `numArgs` and the whole array as tokenized. -/
theorem C3_background_flag (mode : Bool) (pid : Int) (stdin : CStr) (c c1 : Commands)
    (h : get_user_input_tokens pid stdin (loop_reset c) = some c1) :
    ∃ last c2,
      1 ≤ c1.numArgs ∧
      c1.inputArgs (c1.numArgs - 1) = some last ∧
      get_user_input mode pid stdin (loop_reset c) = some c2 ∧
      (c2.is_background_process = 1 ↔ (last = "&".toList ∧ mode = false)) ∧
      (last = "&".toList →
        c2.numArgs + 1 = c1.numArgs ∧ c2.inputArgs (c1.numArgs - 1) = none ∧
        ∀ i, i ≠ c1.numArgs - 1 → c2.inputArgs i = c1.inputArgs i) ∧
      (last ≠ "&".toList →
        c2.numArgs = c1.numArgs ∧ c2.inputArgs = c1.inputArgs ∧
        c2.is_background_process = 0) := by
  obtain ⟨h1, _, h3, _, _, h6, _⟩ := get_user_input_tokens_spec pid stdin _ c1 h
  have hbg : c1.is_background_process = 0 := by rw [h6]; rfl
  have hlast := h3 (c1.numArgs - 1) (by omega)
  cases hl : c1.inputArgs (c1.numArgs - 1) with
  | none => rw [hl] at hlast; simp at hlast
  | some last =>
    have hne : c1.numArgs ≠ 0 := by omega
    by_cases hamp : last = "&".toList
    · cases mode with
      | false =>
        refine ⟨last,
          { c1 with inputArgs := setAt c1.inputArgs (c1.numArgs - 1) none,
                    numArgs := c1.numArgs - 1, is_background_process := 1 },
          h1, rfl, ?_, ?_, ?_, ?_⟩
        · simp [get_user_input, h, get_user_input_amp, hne, hl, hamp]
        · simp [hamp]
        · intro _
          refine ⟨by simp only; omega, by simp [setAt_same], ?_⟩
          intro i hi
          exact setAt_other _ _ _ _ hi
        · intro hc; exact absurd hamp hc
      | true =>
        refine ⟨last,
          { c1 with inputArgs := setAt c1.inputArgs (c1.numArgs - 1) none,
                    numArgs := c1.numArgs - 1, is_background_process := 0 },
          h1, rfl, ?_, ?_, ?_, ?_⟩
        · simp [get_user_input, h, get_user_input_amp, hne, hl, hamp]
        · simp
        · intro _
          refine ⟨by simp only; omega, by simp [setAt_same], ?_⟩
          intro i hi
          exact setAt_other _ _ _ _ hi
        · intro hc; exact absurd hamp hc
    · have hamp2 : ¬ last = ['&'] := hamp
      refine ⟨last, c1, h1, rfl, ?_, ?_, ?_, ?_⟩
      · simp [get_user_input, h, get_user_input_amp, hne, hl, hamp2]
      · simp [hbg, hamp2]
      · intro hc; exact absurd hc hamp
      · intro _; exact ⟨rfl, rfl, hbg⟩

/-- C3, at a concrete input: the line `sleep 5 &` read in normal mode. -/
theorem C3_background_flag_witness : ∃ c2 : Commands,
    get_user_input_tokens 42 "sleep 5 &\n".toList (loop_reset shell_start)
      = some sample_tokenized ∧
    get_user_input false 42 "sleep 5 &\n".toList (loop_reset shell_start) = some c2 ∧
    c2.is_background_process = 1 ∧ c2.numArgs = 2 ∧ c2.inputArgs 2 = none := by
  obtain ⟨last, c2, _, hl, hget, hiff, hrem, _⟩ :=
    C3_background_flag false 42 "sleep 5 &\n".toList shell_start sample_tokenized rfl
  have hlast : last = "&".toList := by
    have h2 : sample_tokenized.inputArgs (sample_tokenized.numArgs - 1) = some "&".toList := by
      decide
    rw [h2] at hl
    exact (Option.some.inj hl).symm
  obtain ⟨h1, h2, _⟩ := hrem hlast
  refine ⟨c2, rfl, hget, hiff.mpr ⟨hlast, rfl⟩, ?_, h2⟩
  have : sample_tokenized.numArgs = 3 := rfl
  omega

/-! ### The redirection loop -/

/-- An iteration on a redirection operator, or with the flag already set,
clears the entry and leaves the flag set. -/
theorem redirect_step_clears (env : Env) (i : Nat) (s : RedirState) (a : CStr)
    (ha : s.inputArgs i = some a)
    (hpath : is_redirect_operator a = true → ∃ p, s.inputArgs (i + 1) = some p)
    (hi : i + 1 < MAX_ARGS)
    (hopen : ∀ n p, env.open_result n p ≠ -1)
    (hflag : s.redirection_flag = 1 ∨ is_redirect_operator a = true) :
    ∃ s1, redirect_step env i s = some (Progress.running s1) ∧
      s1.inputArgs = setAt s.inputArgs i none ∧ s1.redirection_flag = 1 := by
  unfold redirect_step redirect_open
  rw [ha]
  by_cases h1 : a = ['<']
  · obtain ⟨p, hp⟩ := hpath (by simp [is_redirect_operator, h1])
    have ho := hopen s.opens p
    simp [h1, hi, hp, c_open, ho]
  · by_cases h2 : a = ['>']
    · obtain ⟨p, hp⟩ := hpath (by simp [is_redirect_operator, h2])
      have ho := hopen s.opens p
      simp [h2, hi, hp, c_open, ho]
    · have hf : s.redirection_flag = 1 := by
        rcases hflag with h | h
        · exact h
        · simp [is_redirect_operator, h1, h2] at h
      simp [h1, h2, hf]

/-- An iteration on an ordinary token with the flag clear changes nothing. -/
theorem redirect_step_keeps (env : Env) (i : Nat) (s : RedirState) (a : CStr)
    (ha : s.inputArgs i = some a) (hop : is_redirect_operator a = false)
    (hflag : s.redirection_flag = 0) :
    redirect_step env i s = some (Progress.running s) := by
  unfold redirect_step redirect_open
  rw [ha]
  have h1 : ¬ a = ['<'] := by
    intro h; simp [is_redirect_operator, h] at hop
  have h2 : ¬ a = ['>'] := by
    intro h; simp [is_redirect_operator, h] at hop
  simp [h1, h2, hflag]

/-- Once the flag is set the loop runs to its end, clearing every entry it
visits and no entry below its start. -/
theorem redirect_loop_flag_set (env : Env) (hopen : ∀ n p, env.open_result n p ≠ -1) :
    ∀ (l : List CStr) (i : Nat) (s : RedirState),
      s.redirection_flag = 1 →
      (∀ j, j ≤ l.length → s.inputArgs (i + j) = l[j]?) →
      i + l.length + 1 < MAX_ARGS →
      (∀ t, l.getLast? = some t → is_redirect_operator t = false) →
      ∃ s2, redirect_loop env l.length i s = some (Progress.running s2) ∧
        ∀ k, k < i → s2.inputArgs k = s.inputArgs k := by
  intro l
  induction l with
  | nil =>
    intro i s _ _ _ _
    exact ⟨s, rfl, fun _ _ => rfl⟩
  | cons a rest ih =>
    intro i s hflag harr hlen hlast
    have ha : s.inputArgs i = some a := by simpa using harr 0 (by simp)
    have hpath : is_redirect_operator a = true → ∃ p, s.inputArgs (i + 1) = some p := by
      intro hop
      cases rest with
      | nil =>
        have := hlast a (by simp)
        rw [this] at hop
        exact absurd hop (by simp)
      | cons b rest2 =>
        refine ⟨b, ?_⟩
        simpa using harr 1 (by simp)
    simp only [List.length_cons] at hlen
    obtain ⟨s1, hs1, harg1, hflag1⟩ :=
      redirect_step_clears env i s a ha hpath (by omega) hopen (Or.inl hflag)
    have harr1 : ∀ j, j ≤ rest.length → s1.inputArgs (i + 1 + j) = rest[j]? := by
      intro j hj
      rw [harg1, setAt_other _ _ _ _ (by omega)]
      have := harr (j + 1) (by simp; omega)
      rw [List.getElem?_cons_succ] at this
      rw [← this]
      congr 1
      omega
    have hlast1 : ∀ t, rest.getLast? = some t → is_redirect_operator t = false := by
      intro t ht
      cases rest with
      | nil => simp at ht
      | cons b rest2 =>
        apply hlast t
        rw [List.getLast?_cons_cons]
        exact ht
    obtain ⟨s2, hs2, hkeep⟩ := ih (i + 1) s1 hflag1 harr1 (by omega) hlast1
    refine ⟨s2, ?_, ?_⟩
    · simp only [List.length_cons, redirect_loop, hs1]
      exact hs2
    · intro k hk
      rw [hkeep k (by omega), harg1]
      exact setAt_other _ _ _ _ (by omega)

/-- Started with the flag clear on an array that holds the tokens `l` from
index `i` on, the loop runs to its end and leaves there the tokens before the
first redirection operator, followed by `NULL`. -/
theorem redirect_loop_tokens (env : Env) (hopen : ∀ n p, env.open_result n p ≠ -1) :
    ∀ (l : List CStr) (i : Nat) (s : RedirState),
      s.redirection_flag = 0 →
      (∀ j, j ≤ l.length → s.inputArgs (i + j) = l[j]?) →
      i + l.length + 1 < MAX_ARGS →
      (∀ t, l.getLast? = some t → is_redirect_operator t = false) →
      ∃ s2, redirect_loop env l.length i s = some (Progress.running s2) ∧
        (∀ k, k < i → s2.inputArgs k = s.inputArgs k) ∧
        (∀ j, j ≤ (l.takeWhile (fun t => !is_redirect_operator t)).length →
          s2.inputArgs (i + j) = (l.takeWhile (fun t => !is_redirect_operator t))[j]?) := by
  intro l
  induction l with
  | nil =>
    intro i s _ harr _ _
    refine ⟨s, rfl, fun _ _ => rfl, ?_⟩
    intro j hj
    simp only [List.takeWhile_nil, List.length_nil, Nat.le_zero_eq] at hj
    subst hj
    simpa using harr 0 (by simp)
  | cons a rest ih =>
    intro i s hflag harr hlen hlast
    have ha : s.inputArgs i = some a := by simpa using harr 0 (by simp)
    simp only [List.length_cons] at hlen
    have hlast1 : ∀ t, rest.getLast? = some t → is_redirect_operator t = false := by
      intro t ht
      cases rest with
      | nil => simp at ht
      | cons b rest2 =>
        apply hlast t
        rw [List.getLast?_cons_cons]
        exact ht
    cases hop : is_redirect_operator a with
    | false =>
      have hs1 := redirect_step_keeps env i s a ha hop hflag
      have harr1 : ∀ j, j ≤ rest.length → s.inputArgs (i + 1 + j) = rest[j]? := by
        intro j hj
        have := harr (j + 1) (by simp; omega)
        rw [List.getElem?_cons_succ] at this
        rw [← this]
        congr 1
        omega
      obtain ⟨s2, hs2, hkeep, htw⟩ := ih (i + 1) s hflag harr1 (by omega) hlast1
      refine ⟨s2, ?_, ?_, ?_⟩
      · simp only [List.length_cons, redirect_loop, hs1]
        exact hs2
      · intro k hk
        exact hkeep k (by omega)
      · intro j hj
        simp only [List.takeWhile_cons, hop, Bool.not_false, if_true] at hj ⊢
        cases j with
        | zero =>
          rw [List.getElem?_cons_zero, Nat.add_zero, hkeep i (by omega), ha]
        | succ j =>
          rw [List.getElem?_cons_succ]
          have := htw j (by simpa using hj)
          rw [← this]
          congr 1
          omega
    | true =>
      have hpath : is_redirect_operator a = true → ∃ p, s.inputArgs (i + 1) = some p := by
        intro _
        cases rest with
        | nil =>
          have := hlast a (by simp)
          rw [this] at hop
          exact absurd hop (by simp)
        | cons b rest2 =>
          refine ⟨b, ?_⟩
          simpa using harr 1 (by simp)
      obtain ⟨s1, hs1, harg1, hflag1⟩ :=
        redirect_step_clears env i s a ha hpath (by omega) hopen (Or.inr hop)
      have harr1 : ∀ j, j ≤ rest.length → s1.inputArgs (i + 1 + j) = rest[j]? := by
        intro j hj
        rw [harg1, setAt_other _ _ _ _ (by omega)]
        have := harr (j + 1) (by simp; omega)
        rw [List.getElem?_cons_succ] at this
        rw [← this]
        congr 1
        omega
      obtain ⟨s2, hs2, hkeep⟩ :=
        redirect_loop_flag_set env hopen rest (i + 1) s1 hflag1 harr1 (by omega) hlast1
      refine ⟨s2, ?_, ?_, ?_⟩
      · simp only [List.length_cons, redirect_loop, hs1]
        exact hs2
      · intro k hk
        rw [hkeep k (by omega), harg1]
        exact setAt_other _ _ _ _ (by omega)
      · intro j hj
        simp only [List.takeWhile_cons, hop, Bool.not_true] at hj ⊢
        simp only [Bool.false_eq_true, if_false, List.length_nil, Nat.le_zero_eq] at hj
        subst hj
        simp only [Bool.false_eq_true, if_false, Nat.add_zero]
        rw [hkeep i (by omega), harg1, setAt_same]
        rfl

/-- The vector `execvp` reads from an array that holds the strings `l` from
index `i` on, followed by `NULL`. -/
theorem argv_from_tokens (a : Nat → Option CStr) :
    ∀ (l : List CStr) (left i : Nat),
      (∀ j, j ≤ l.length → a (i + j) = l[j]?) → l.length < left →
      argv_from a left i = some l := by
  intro l
  induction l with
  | nil =>
    intro left i harr hlen
    cases left with
    | zero => simp at hlen
    | succ left =>
      have h0 : a i = none := by simpa using harr 0 (by simp)
      simp [argv_from, h0]
  | cons b rest ih =>
    intro left i harr hlen
    cases left with
    | zero => simp at hlen
    | succ left =>
      have h0 : a i = some b := by simpa using harr 0 (by simp)
      have harr1 : ∀ j, j ≤ rest.length → a (i + 1 + j) = rest[j]? := by
        intro j hj
        have := harr (j + 1) (by simp; omega)
        rw [List.getElem?_cons_succ] at this
        rw [← this]
        congr 1
        omega
      simp only [List.length_cons] at hlen
      have := ih left (i + 1) harr1 (by omega)
      simp [argv_from, h0, this]

/-- With every `open` succeeding the `/dev/null` step goes through and
leaves the argument array alone. -/
theorem dev_null_step_running (env : Env) (hopen : ∀ n p, env.open_result n p ≠ -1)
    (bg : Int) (s : RedirState) :
    ∃ s2, dev_null_step env bg s = Progress.running s2 ∧ s2.inputArgs = s.inputArgs := by
  unfold dev_null_step
  by_cases h : s.redirection_flag = 0 ∧ bg = 1
  · have h1 := hopen s.opens "/dev/null".toList
    have h2 := hopen (s.opens + 1) "/dev/null".toList
    simp only [if_pos h, c_open, h1, h2, if_false]
    exact ⟨_, rfl, rfl⟩
  · rw [if_neg h]
    exact ⟨s, rfl, rfl⟩

/-- The record after the `&` step of `get_user_input` holds the tokens
without a trailing `&`, followed by `NULL`. -/
theorem get_user_input_amp_tokens (mode : Bool) (c1 : Commands) (toks : List CStr)
    (hn : c1.numArgs = toks.length) (hne : toks ≠ [])
    (htok : ∀ i, i ≤ toks.length → c1.inputArgs i = toks[i]?) :
    ∃ c2, get_user_input_amp mode c1 = some c2 ∧
      c2.numArgs = (strip_trailing_amp toks).length ∧
      (∀ i, i ≤ (strip_trailing_amp toks).length →
        c2.inputArgs i = (strip_trailing_amp toks)[i]?) := by
  have hpos : 0 < toks.length := List.length_pos.mpr hne
  have hnum : c1.numArgs ≠ 0 := by omega
  have hl := htok (toks.length - 1) (by omega)
  rw [← List.getLast?_eq_getElem?] at hl
  cases hg : toks.getLast? with
  | none =>
    rw [List.getLast?_eq_getElem?, List.getElem?_eq_getElem (by omega)] at hg
    simp at hg
  | some last =>
    rw [hg] at hl
    by_cases hamp : last = ['&']
    · have hstrip : strip_trailing_amp toks = toks.dropLast := by
        simp [strip_trailing_amp, hg, hamp]
      rw [hstrip]
      have harr : ∀ i, i ≤ toks.dropLast.length →
          setAt c1.inputArgs (c1.numArgs - 1) none i = toks.dropLast[i]? := by
        intro i hi
        rw [List.length_dropLast] at hi
        rw [List.getElem?_dropLast]
        by_cases hi2 : i < toks.length - 1
        · rw [if_pos hi2, setAt_other _ _ _ _ (by omega)]
          exact htok i (by omega)
        · rw [if_neg hi2]
          have : i = c1.numArgs - 1 := by omega
          rw [this, setAt_same]
      cases mode with
      | false =>
        refine ⟨
          { c1 with inputArgs := setAt c1.inputArgs (c1.numArgs - 1) none,
                    numArgs := c1.numArgs - 1, is_background_process := 1 },
          ?_, ?_, harr⟩
        · simp only [get_user_input_amp, hnum, hn ▸ hl, if_false]
          simp [hamp]
        · simp only [List.length_dropLast]; omega
      | true =>
        refine ⟨
          { c1 with inputArgs := setAt c1.inputArgs (c1.numArgs - 1) none,
                    numArgs := c1.numArgs - 1, is_background_process := 0 },
          ?_, ?_, harr⟩
        · simp only [get_user_input_amp, hnum, hn ▸ hl, if_false]
          simp [hamp]
        · simp only [List.length_dropLast]; omega
    · have hstrip : strip_trailing_amp toks = toks := by
        simp [strip_trailing_amp, hg, hamp]
      rw [hstrip]
      refine ⟨c1, ?_, hn, htok⟩
      simp only [get_user_input_amp, hnum, hn ▸ hl, if_false]
      simp [hamp]

/-- C4, as stated, fails: for the line `wc < in -l`, whose redirection target
opens, the child hands `execvp` the vector `wc` alone, while the tokens without
the operator `<` and its path `in` are `wc -l`. -/
theorem C4_counterexample_token_after_redirection_dropped :
    (get_user_input_tokens 42 "wc < in -l\n".toList (loop_reset shell_start)).map
        (fun c => args_upto c.inputArgs c.numArgs) =
      some [some "wc".toList, some "<".toList, some "in".toList, some "-l".toList] ∧
    (get_user_input false 42 "wc < in -l\n".toList (loop_reset shell_start)).bind
        (exec_other_commands (sample_env [])) =
      some [Event.open_file (some "in".toList) 3, Event.dup2 3 0, Event.close 3,
            Event.execvp (some "wc".toList) ["wc".toList]] ∧
    spec_argv ["wc".toList, "<".toList, "in".toList, "-l".toList] =
      ["wc".toList, "-l".toList] ∧
    ["wc".toList] ≠ spec_argv ["wc".toList, "<".toList, "in".toList, "-l".toList] := by
  decide

/-- C4 (amended): for every tokenized line (tokens `toks`, stored in
`inputArgs` and followed by `NULL`) whose last token after removal of a
trailing `&` is not a redirection operator, and with every `open` succeeding,
the child reaches `execvp`, and the argument vector it hands over is the
tokens, in order and without the trailing `&`, that stand before the first `<`
or `>` operator: every token from the first operator on is dropped. -/
theorem C4_argv_is_tokens_before_first_redirection (env : Env) (mode : Bool)
    (c1 : Commands) (toks : List CStr)
    (hn : c1.numArgs = toks.length) (hne : toks ≠ []) (hlen : toks.length + 1 < MAX_ARGS)
    (htok : ∀ i, i ≤ toks.length → c1.inputArgs i = toks[i]?)
    (hopen : ∀ n p, env.open_result n p ≠ -1)
    (hlast : ∀ t, (strip_trailing_amp toks).getLast? = some t →
      is_redirect_operator t = false) :
    ∃ c2 s2,
      get_user_input_amp mode c1 = some c2 ∧
      exec_prepare env c2 = some (Progress.running s2) ∧
      argv_from s2.inputArgs MAX_ARGS 0 =
        some ((strip_trailing_amp toks).takeWhile (fun t => !is_redirect_operator t)) ∧
      exec_other_commands env c2 =
        some (s2.trace ++ [Event.close s2.fileDescriptor,
          Event.execvp (s2.inputArgs 0)
            ((strip_trailing_amp toks).takeWhile (fun t => !is_redirect_operator t))]
          ++ after_execvp env (s2.inputArgs 0)) := by
  obtain ⟨c2, hc2, hnum2, harr2⟩ := get_user_input_amp_tokens mode c1 toks hn hne htok
  have hle : (strip_trailing_amp toks).length ≤ toks.length := by
    unfold strip_trailing_amp
    split
    · rw [List.length_dropLast]; omega
    · exact Nat.le_refl _
  obtain ⟨s1, hs1, _, htw⟩ := redirect_loop_tokens env hopen (strip_trailing_amp toks) 0
    { inputArgs := c2.inputArgs, redirection_flag := 0, fileDescriptor := env.uninit_fd,
      opens := 0, trace := [] }
    rfl (by intro j hj; simpa using harr2 j hj) (by omega) hlast
  obtain ⟨s2, hs2, harg2⟩ := dev_null_step_running env hopen c2.is_background_process s1
  have hprep : exec_prepare env c2 = some (Progress.running s2) := by
    simp only [exec_prepare, hnum2, hs1, hs2]
  have htwle : ((strip_trailing_amp toks).takeWhile (fun t => !is_redirect_operator t)).length
      ≤ (strip_trailing_amp toks).length := (List.takeWhile_sublist _).length_le
  have hargv := argv_from_tokens s2.inputArgs
    ((strip_trailing_amp toks).takeWhile (fun t => !is_redirect_operator t)) MAX_ARGS 0
    (by intro j hj; rw [harg2]; exact htw j hj) (by omega)
  refine ⟨c2, s2, hc2, hprep, hargv, ?_⟩
  simp only [exec_other_commands, hprep, hargv]

/-- C4 (amended), at a concrete input: the tokens of `wc -l < in &`. -/
theorem C4_argv_is_tokens_before_first_redirection_witness :
    ∃ c2 s2,
      get_user_input_amp false sample_redirect = some c2 ∧
      exec_prepare (sample_env []) c2 = some (Progress.running s2) ∧
      argv_from s2.inputArgs MAX_ARGS 0 = some ["wc".toList, "-l".toList] ∧
      exec_other_commands (sample_env []) c2 =
        some (s2.trace ++ [Event.close s2.fileDescriptor,
          Event.execvp (s2.inputArgs 0) ["wc".toList, "-l".toList]]
          ++ after_execvp (sample_env []) (s2.inputArgs 0)) :=
  C4_argv_is_tokens_before_first_redirection (sample_env []) false sample_redirect
    ["wc".toList, "-l".toList, "<".toList, "in".toList, "&".toList]
    rfl (by decide) (by decide) (fun _ _ => rfl)
    (by intro n p; simp only [sample_env]; omega) (by decide)

/-! ### Wait statuses -/

set_option maxRecDepth 100000 in
/-- The status word of a normal exit with code `V` is `V * 256`: the macros
decode it as exited with exit status `V`. -/
theorem exit_status_word : ∀ V, V < 256 →
    (WIFEXITED (V * 256) = true ∧ WEXITSTATUS (V * 256) = V) := by
  decide

/-- C5 (code defect): for a background child that exited normally with code
`V`, the sweep prints the whole status word `V * 256` after "exit value", not
the exit code `WEXITSTATUS` gives (`check_status` does decode it). -/
theorem C5_sweep_prints_status_word (c : Commands) (pid : Int) (V : Nat)
    (hpid : 0 < pid) (hV : V < 256) :
    WIFEXITED (V * 256) = true ∧ WEXITSTATUS (V * 256) = V ∧
    (reap_loop c [(pid, V * 256)]).2 =
      [Event.waitpid (-1) true pid,
       Event.printf "background pid %d is done: exit value %d\n"
         [Arg.int pid, Arg.int ((V * 256 : Nat) : Int)],
       Event.waitpid (-1) true 0] ∧
    check_status { c with processStatus := V * 256 } =
      [Event.printf "exit value %d \n" [Arg.int (V : Int)]] := by
  obtain ⟨h1, h2⟩ := exit_status_word V hV
  refine ⟨h1, h2, ?_, ?_⟩
  · simp [reap_loop, hpid, h1]
  · simp [check_status, h1, h2]

/-- C5, at a concrete input: child 100 exits with code 1, the sweep prints
"exit value 256". -/
theorem C5_sweep_prints_status_word_witness :
    WIFEXITED (1 * 256) = true ∧ WEXITSTATUS (1 * 256) = 1 ∧
    (reap_loop shell_start [(100, 1 * 256)]).2 =
      [Event.waitpid (-1) true 100,
       Event.printf "background pid %d is done: exit value %d\n"
         [Arg.int 100, Arg.int ((1 * 256 : Nat) : Int)],
       Event.waitpid (-1) true 0] ∧
    check_status { shell_start with processStatus := 1 * 256 } =
      [Event.printf "exit value %d \n" [Arg.int ((1 : Nat) : Int)]] :=
  C5_sweep_prints_status_word shell_start 100 1 (by decide) (by decide)

/-- C6 (code defect): all three reports print the whole status word after
"terminated by signal".  For a child killed by signal 11 with a core dump the
status word is 139: `WIFSIGNALED` holds, `WTERMSIG` is 11, and the foreground
branch, `status` and the sweep each print 139. -/
theorem C6_reports_print_status_word :
    WIFSIGNALED 139 = true ∧ WTERMSIG 139 = 11 ∧ 139 = 11 + WCOREFLAG ∧
    (parent_foreground { sample_env [] with wait_fg := some 139 } shell_start).2 =
      [Event.waitpid 100 false 100,
       Event.printf "terminated by signal %d\n" [Arg.int 139]] ∧
    check_status { shell_start with processStatus := 139 } =
      [Event.printf "terminated by signal %d\n" [Arg.int 139]] ∧
    (reap_loop shell_start [(100, 139)]).2 =
      [Event.waitpid (-1) true 100,
       Event.printf "background pid %d is done: terminated by signal %d\n"
         [Arg.int 100, Arg.int 139],
       Event.waitpid (-1) true 0] := by
  decide

/-- C7 (code defect): on a blank line `strtok(inputBuffer, "\n")` finds no
token and leaves the newline in the buffer, so the tokenizer yields the one
token "\n"; the record is not empty, no built-in matches, and the shell forks
a child, which fails to execute "\n" and exits with status 1. -/
theorem C7_blank_line_forks :
    strip_newline (fgets MAX_CHARS_INPUT "\n".toList) = "\n".toList ∧
    (get_user_input false 42 "\n".toList (loop_reset shell_start)).map
        (fun c => (c.numArgs, c.inputArgs 0, dispatch c)) =
      some (1, some "\n".toList, Action.fork) ∧
    (main_iteration (sample_env "\n".toList) shell_start).map (fun r => r.2) =
      some [Event.write 1 ": ".toList 2, Event.fork 100, Event.waitpid 100 false 100,
            Event.waitpid (-1) true 0] ∧
    (main_iteration { sample_env "\n".toList with fork_ret := 0, execvp_fails := true }
        shell_start).map (fun r => r.2) =
      some [Event.write 1 ": ".toList 2, Event.fork 0,
            Event.sigaction SIGINT Disposition.SIG_DFL, Event.close 0,
            Event.execvp (some "\n".toList) ["\n".toList],
            Event.fprintf_stderr "%s: no such file or directory\n"
              [Arg.str (some "\n".toList)],
            Event.exit 1] := by
  decide

/-- C8 (code defect): the expanded line is produced by `sprintf` with the
line itself as format string.  In `echo %% $$` the `%%` of the line is read as
a directive and comes out as a single `%`; in `echo $$ $$` the second `%d` has
no argument, so the text has no defined value. -/
theorem C8_expansion_goes_through_sprintf :
    get_user_input_text 42 "echo %% $$\n".toList = some "echo % 42".toList ∧
    spec_substitute_pid 42 "echo %% $$".toList = "echo %% 42".toList ∧
    get_user_input_text 42 "echo $$ $$\n".toList = none ∧
    spec_substitute_pid 42 "echo $$ $$".toList = "echo 42 42".toList ∧
    get_user_input_text 42 "echo $$ $x\n".toList = some "echo 42 $x".toList := by
  decide

/-! ### The dispatch and the events of one pass -/

/-- The sweep calls no `fork`. -/
theorem reap_loop_no_fork : ∀ (l : List (Int × Nat)) (c : Commands),
    (reap_loop c l).2.any is_fork = false := by
  intro l
  induction l with
  | nil => intro c; simp [reap_loop, is_fork]
  | cons p rest ih =>
    intro c
    obtain ⟨pid, w⟩ := p
    unfold reap_loop
    by_cases hp : pid > 0
    · simp only [if_pos hp, List.any_cons, ih, Bool.or_false]
      split <;> simp [is_fork]
    · simp [if_neg hp, is_fork]

/-- The kill loop calls no `fork`. -/
theorem kill_loop_no_fork (c : Commands) : ∀ (fuel i : Nat) (t : List Event),
    kill_loop c fuel i = some t → t.any is_fork = false := by
  intro fuel
  induction fuel with
  | zero =>
    intro i t h
    unfold kill_loop at h
    split at h
    · simp at h
    · simp at h; subst h; rfl
  | succ fuel ih =>
    intro i t h
    unfold kill_loop at h
    split at h
    · split at h
      · cases hk : kill_loop c fuel (i + 1) with
        | none => rw [hk] at h; simp at h
        | some rest =>
          rw [hk] at h
          simp only [Option.some.injEq] at h
          subst h
          simp [is_fork, ih _ _ hk]
      · simp at h
    · simp at h; subst h; rfl

/-- The branch of the chain is decided by the first argument. -/
theorem dispatch_cases (c : Commands) :
    (dispatch c = Action.noop ↔
      (c.inputArgs 0 = none ∨ ∃ arg0, c.inputArgs 0 = some arg0 ∧ arg0.head? = some '#')) ∧
    (dispatch c = Action.status ↔ c.inputArgs 0 = some "status".toList) ∧
    (dispatch c = Action.exit ↔ c.inputArgs 0 = some "exit".toList) ∧
    (dispatch c = Action.cd ↔ c.inputArgs 0 = some "cd".toList) ∧
    (dispatch c = Action.fork ↔
      (¬ (c.inputArgs 0 = none ∨ ∃ arg0, c.inputArgs 0 = some arg0 ∧ arg0.head? = some '#') ∧
       c.inputArgs 0 ≠ some "status".toList ∧ c.inputArgs 0 ≠ some "exit".toList ∧
       c.inputArgs 0 ≠ some "cd".toList)) := by
  unfold dispatch
  cases h0 : c.inputArgs 0 with
  | none => simp
  | some arg0 =>
    by_cases h1 : arg0.head? = some '#'
    · have hs : strncmp1_eq arg0 "#".toList = true := by simp [strncmp1_eq, h1]
      simp only [hs, if_true]
      refine ⟨by simp [h1], ?_, ?_, ?_, by simp [h1]⟩ <;>
      · constructor
        · intro h; cases h
        · intro h
          simp only [Option.some.injEq] at h
          subst h
          simp at h1
    · have hs : strncmp1_eq arg0 "#".toList = false := by
        simp [strncmp1_eq]
        simpa using h1
      simp only [hs]
      by_cases h2 : arg0 = ['s', 't', 'a', 't', 'u', 's']
      · subst h2; simp
      · by_cases h3 : arg0 = ['e', 'x', 'i', 't']
        · subst h3; simp
        · by_cases h4 : arg0 = ['c', 'd']
          · subst h4; simp
          · simp [h1, h2, h3, h4]
/-- The end of a pass adds no `fork` to the effects before it. -/
theorem end_of_iteration_fork (env : Env) (c : Commands) (t : List Event) :
    (end_of_iteration env c t).2.any is_fork = t.any is_fork := by
  simp [end_of_iteration, List.any_append, reap_loop_no_fork]

/-- The `status` built-in calls no `fork`. -/
theorem check_status_no_fork (c : Commands) : (check_status c).any is_fork = false := by
  unfold check_status
  split <;> simp [is_fork]

/-- The `cd` built-in calls no `fork`. -/
theorem cd_command_no_fork (env : Env) (c : Commands) (t : List Event)
    (h : cd_command env c = some t) : t.any is_fork = false := by
  unfold cd_command at h
  simp only at h
  split at h
  · split at h
    · simp at h
    · split at h
      · simp only [Option.some.injEq] at h
        subst h
        simp [is_fork]
      · simp at h
  · simp only [Option.some.injEq] at h
    subst h
    simp [is_fork]

/-- The `exit` built-in calls no `fork`. -/
theorem exit_builtin_no_fork (c : Commands) (t : List Event)
    (h : exit_builtin c = some t) : t.any is_fork = false := by
  unfold exit_builtin at h
  simp only at h
  split at h
  · simp at h
  · rename_i kills hk
    simp only [Option.some.injEq] at h
    subst h
    have := kill_loop_no_fork _ _ _ _ hk
    simp [List.any_append, this, is_fork]

/-- A pass of the loop calls `fork` exactly in the last branch of the chain. -/
theorem main_iteration_forks_iff (env : Env) (c0 c : Commands) (r : Outcome) (t : List Event)
    (hget : get_user_input env.foreground_only_mode env.getpid env.stdin (loop_reset c0)
      = some c)
    (h : main_iteration env c0 = some (r, t)) :
    (t.any is_fork = true ↔ dispatch c = Action.fork) := by
  unfold main_iteration at h
  simp only [hget] at h
  cases hd : dispatch c with
  | noop =>
    rw [hd] at h
    simp only [Option.some.injEq] at h
    have ht : t = (end_of_iteration env c [Event.write 1 ": ".toList 2]).2 := by rw [h]
    rw [ht, end_of_iteration_fork]
    simp [is_fork]
  | status =>
    rw [hd] at h
    simp only [Option.some.injEq] at h
    have ht : t = (end_of_iteration env c
        ([Event.write 1 ": ".toList 2] ++ check_status c)).2 := by rw [h]
    rw [ht, end_of_iteration_fork]
    simp [is_fork, List.any_append, check_status_no_fork]
  | exit =>
    rw [hd] at h
    simp only at h
    split at h
    · simp at h
    · rename_i t2 ht2
      simp only [Option.some.injEq, Prod.mk.injEq] at h
      obtain ⟨_, h2⟩ := h
      subst h2
      have := exit_builtin_no_fork c t2 ht2
      simp [is_fork, List.any_append, this]
  | cd =>
    rw [hd] at h
    simp only at h
    split at h
    · simp at h
    · rename_i t2 ht2
      simp only [Option.some.injEq] at h
      have ht : t = (end_of_iteration env c ([Event.write 1 ": ".toList 2] ++ t2)).2 := by
        rw [h]
      rw [ht, end_of_iteration_fork]
      have := cd_command_no_fork env c t2 ht2
      simp [is_fork, List.any_append, this]
  | fork =>
    rw [hd] at h
    simp only at h
    simp only [iff_true]
    split at h
    · split at h
      · simp at h
      · simp only [Option.some.injEq, Prod.mk.injEq] at h
        obtain ⟨_, h2⟩ := h
        subst h2
        simp [is_fork, List.any_append]
    · split at h
      · split at h
        · simp at h
        · split at h <;>
          · simp only [Option.some.injEq, Prod.mk.injEq] at h
            obtain ⟨_, h2⟩ := h
            subst h2
            simp [is_fork, List.any_append]
      · split at h
        · simp at h
        · simp only [Option.some.injEq] at h
          rename_i bg hbg
          have ht : t = (end_of_iteration env bg.1
              ([Event.write 1 ": ".toList 2] ++ [Event.fork env.fork_ret] ++
                (parent_foreground env c).2 ++ bg.2)).2 := by rw [h]
          rw [ht, end_of_iteration_fork]
          simp [is_fork, List.any_append]
/-- C9: for every command record the branch `main` takes is decided by the
first argument alone: no-op iff it is `NULL` or begins with `#`; `status`,
`exit`, `cd` iff it equals that word exactly; the fork branch iff none of
these four cases applies; and a pass of the loop calls `fork` iff it takes the
fork branch. -/
theorem C9_dispatch_by_first_argument (c : Commands) :
    (dispatch c = Action.noop ↔
      (c.inputArgs 0 = none ∨ ∃ arg0, c.inputArgs 0 = some arg0 ∧ arg0.head? = some '#')) ∧
    (dispatch c = Action.status ↔ c.inputArgs 0 = some "status".toList) ∧
    (dispatch c = Action.exit ↔ c.inputArgs 0 = some "exit".toList) ∧
    (dispatch c = Action.cd ↔ c.inputArgs 0 = some "cd".toList) ∧
    (dispatch c = Action.fork ↔
      (¬ (c.inputArgs 0 = none ∨ ∃ arg0, c.inputArgs 0 = some arg0 ∧ arg0.head? = some '#') ∧
       c.inputArgs 0 ≠ some "status".toList ∧ c.inputArgs 0 ≠ some "exit".toList ∧
       c.inputArgs 0 ≠ some "cd".toList)) ∧
    (∀ (env : Env) (c0 : Commands) (r : Outcome) (t : List Event),
      get_user_input env.foreground_only_mode env.getpid env.stdin (loop_reset c0) = some c →
      main_iteration env c0 = some (r, t) →
      (t.any is_fork = true ↔ dispatch c = Action.fork)) := by
  obtain ⟨h1, h2, h3, h4, h5⟩ := dispatch_cases c
  exact ⟨h1, h2, h3, h4, h5, fun env c0 r t hget h =>
    main_iteration_forks_iff env c0 c r t hget h⟩

/-- C9, at concrete inputs: the first arguments `cdx` and `statuss` are no
built-ins and take the fork branch, `#cd` is a no-op. -/
theorem C9_dispatch_by_first_argument_witness :
    dispatch { shell_start with inputArgs := fun _ => some "cdx".toList } = Action.fork ∧
    dispatch { shell_start with inputArgs := fun _ => some "statuss".toList } = Action.fork ∧
    dispatch { shell_start with inputArgs := fun _ => some "#cd".toList } = Action.noop :=
  ⟨(C9_dispatch_by_first_argument
      { shell_start with inputArgs := fun _ => some "cdx".toList }).2.2.2.2.1.mpr
      ⟨by simp, by decide, by decide, by decide⟩,
   (C9_dispatch_by_first_argument
      { shell_start with inputArgs := fun _ => some "statuss".toList }).2.2.2.2.1.mpr
      ⟨by simp, by decide, by decide, by decide⟩,
   (C9_dispatch_by_first_argument
      { shell_start with inputArgs := fun _ => some "#cd".toList }).1.mpr
      (Or.inr ⟨"#cd".toList, rfl, rfl⟩)⟩

/-! ### The `exit` built-in -/

/-- The kill loop sends `SIGTERM` to the recorded ids from index `i` on, in
index order, provided the count is within the table. -/
theorem kill_loop_spec (c : Commands) (hcount : c.bg_procs_count ≤ MAX_ARGS) :
    ∀ (n i : Nat), i + n = c.bg_procs_count →
      kill_loop c n i =
        some ((List.range' i n).map (fun j => Event.kill (c.background_processes j) SIGTERM)) := by
  intro n
  induction n with
  | zero =>
    intro i hi
    have : ¬ i < c.bg_procs_count := by omega
    simp [kill_loop, this]
  | succ n ih =>
    intro i hi
    have h1 : i < c.bg_procs_count := by omega
    have h2 : i < MAX_ARGS := by omega
    have h3 := ih (i + 1) (by omega)
    simp [kill_loop, h1, h2, h3, List.range'_succ]

/-- C10: for every state of the Background Job Table (a count within the
table's `MAX_ARGS` entries) the `exit` built-in sends `SIGTERM` once to each of
the `bg_procs_count` recorded ids, in index (insertion) order, calls no
`waitpid`, and ends the shell with `exit(0)`; a pass of the loop that reads
`exit` consists of the prompt and exactly these effects. -/
theorem C10_exit_signals_every_job (c : Commands) (hcount : c.bg_procs_count ≤ MAX_ARGS) :
    exit_builtin c =
      some ((List.range c.bg_procs_count).map
        (fun i => Event.kill (c.background_processes i) SIGTERM) ++ [Event.exit 0]) ∧
    ((List.range c.bg_procs_count).map
        (fun i => Event.kill (c.background_processes i) SIGTERM) ++ [Event.exit 0]).any
      is_waitpid = false ∧
    (∀ (env : Env) (c0 : Commands),
      get_user_input env.foreground_only_mode env.getpid env.stdin (loop_reset c0) = some c →
      dispatch c = Action.exit →
      ∃ t, main_iteration env c0 = some (Outcome.exited 0, t) ∧
        t = Event.write 1 ": ".toList 2 :: ((List.range c.bg_procs_count).map
          (fun i => Event.kill (c.background_processes i) SIGTERM) ++ [Event.exit 0])) := by
  have hk : exit_builtin c =
      some ((List.range c.bg_procs_count).map
        (fun i => Event.kill (c.background_processes i) SIGTERM) ++ [Event.exit 0]) := by
    have := kill_loop_spec (delete_commands { c with exitStatus := true }) hcount
      c.bg_procs_count 0 (by simp [delete_commands])
    simp only [exit_builtin, kill_background_processes]
    rw [show (delete_commands { c with exitStatus := true }).bg_procs_count
      = c.bg_procs_count from rfl, this, List.range_eq_range']
    rfl
  refine ⟨hk, ?_, ?_⟩
  · simp [List.any_append, is_waitpid]
  · intro env c0 hget hd
    refine ⟨_, ?_, rfl⟩
    simp only [main_iteration, hget, hd, hk]
    rfl

/-- C10, at a concrete input: with the children 200 and 201 recorded, `exit`
signals 200, then 201, then leaves with status 0. -/
theorem C10_exit_signals_every_job_witness :
    exit_builtin shell_two_jobs =
      some [Event.kill 200 SIGTERM, Event.kill 201 SIGTERM, Event.exit 0] :=
  (C10_exit_signals_every_job shell_two_jobs (by decide)).1

/-! ### The status reported before any foreground command -/

/-- C11 (code defect): `status` in a fresh shell prints exit value 0, but a
reaped background child changes the report although no foreground command has
run.  In the session `sleep 100 &`, a comment line during whose sweep child 100
(killed by signal 15) is reaped, then `status`, the built-in prints "terminated
by signal 15"; in the session `false &` whose child has already exited with
code 1 when the `WNOHANG` wait after the launch runs, then `status`, it prints
"exit value 1".  Neither session makes a blocking wait. -/
theorem C11_status_reports_reaped_background_child :
    check_status shell_start = [Event.printf "exit value %d \n" [Arg.int 0]] ∧
    (run_lines [sample_env "sleep 100 &\n".toList,
                { sample_env "# later\n".toList with reaped := [(100, 15)] },
                sample_env "status\n".toList] shell_start).map (fun r => r.2) =
      some [Event.write 1 ": ".toList 2,
            Event.fork 100,
            Event.waitpid 100 true 0,
            Event.printf "background pid is %d\n" [Arg.int 100],
            Event.waitpid (-1) true 0,
            Event.write 1 ": ".toList 2,
            Event.waitpid (-1) true 100,
            Event.printf "background pid %d is done: terminated by signal %d\n"
              [Arg.int 100, Arg.int 15],
            Event.waitpid (-1) true 0,
            Event.write 1 ": ".toList 2,
            Event.printf "terminated by signal %d\n" [Arg.int 15],
            Event.waitpid (-1) true 0] ∧
    (run_lines [{ sample_env "false &\n".toList with wait_bg := some 256 },
                sample_env "status\n".toList] shell_start).map (fun r => r.2) =
      some [Event.write 1 ": ".toList 2,
            Event.fork 100,
            Event.waitpid 100 true 100,
            Event.printf "background pid is %d\n" [Arg.int 100],
            Event.waitpid (-1) true 0,
            Event.write 1 ": ".toList 2,
            Event.printf "exit value %d \n" [Arg.int 1],
            Event.waitpid (-1) true 0] := by
  decide

/-! ### Failures in the child -/

/-- C12 (code defect): when the target of `>` cannot be opened, the report is
`fprintf(stderr, "cannot open %s for output\n", fileDescriptor)`: the `%s`
directive is handed the `int` -1, which does not fit and has undefined
behaviour, so neither the report nor the `exit(1)` after it is assured.  The
input case passes the path token and is well formed; in both cases no `execvp`
is reached. -/
theorem C12_output_failure_report_does_not_fit :
    exec_other_commands env_open_fails
        (record_of ["ls".toList, ">".toList, "out".toList] 0) =
      some [Event.open_file (some "out".toList) (-1),
            Event.fprintf_stderr "cannot open %s for output\n" [Arg.int (-1)],
            Event.exit 1] ∧
    printf_args_fit "cannot open %s for output\n".toList [Arg.int (-1)] = false ∧
    exec_other_commands env_open_fails
        (record_of ["ls".toList, "<".toList, "in".toList] 0) =
      some [Event.open_file (some "in".toList) (-1),
            Event.fprintf_stderr "cannot open file %s for input\n" [Arg.str (some "in".toList)],
            Event.exit 1] ∧
    printf_args_fit "cannot open file %s for input\n".toList [Arg.str (some "in".toList)]
      = true ∧
    (exec_other_commands env_open_fails
        (record_of ["ls".toList, ">".toList, "out".toList] 0)).map
      (fun t => t.any is_execvp) = some false := by
  decide

/-- C13 (code defect): a background command without redirection gets two
separately opened `/dev/null` descriptors duplicated onto 0 and 1, as claimed;
a foreground command without redirection opens and duplicates nothing, but
line 590 still calls `close(fileDescriptor)` on the local that was never
assigned: whenever that indeterminate value is 0 or 1 the child closes its
standard input or output before `execvp`. -/
theorem C13_foreground_closes_unassigned_descriptor :
    exec_other_commands (sample_env []) (record_of ["sleep".toList, "5".toList] 1) =
      some [Event.open_file (some "/dev/null".toList) 3, Event.dup2 3 0,
            Event.open_file (some "/dev/null".toList) 4, Event.dup2 4 1,
            Event.close 4,
            Event.execvp (some "sleep".toList) ["sleep".toList, "5".toList]] ∧
    exec_other_commands { sample_env [] with uninit_fd := 0 } (record_of ["cat".toList] 0) =
      some [Event.close 0, Event.execvp (some "cat".toList) ["cat".toList]] ∧
    touches_std_descriptor (Event.close 0) = true ∧
    exec_other_commands { sample_env [] with uninit_fd := 1 } (record_of ["cat".toList] 0) =
      some [Event.close 1, Event.execvp (some "cat".toList) ["cat".toList]] ∧
    touches_std_descriptor (Event.close 1) = true ∧
    (exec_other_commands { sample_env [] with uninit_fd := 7 }
        (record_of ["cat".toList] 0)).map (fun t => t.any touches_std_descriptor) =
      some false := by
  decide

/-! ### The stop-signal handler -/

/-- C14: the set-up of `main` installs `handler_SIGTSTP` for the stop signal;
each run of the handler negates `foreground_only_mode`, so two runs in a row
restore the value; the notice written is the "Entering foreground-only mode
(& is now ignored)" text exactly when the flag goes from off to on, and the
"Exiting foreground-only mode" text exactly when it goes from on to off. -/
theorem C14_handler_toggles_mode (b : Bool) :
    (∀ tbl : SigTable, main_signal_setup tbl SIGTSTP = Disposition.handler_SIGTSTP) ∧
    (handler_SIGTSTP b).1 = !b ∧
    (handler_SIGTSTP (handler_SIGTSTP b).1).1 = b ∧
    ((handler_SIGTSTP b).2 =
        [Event.write 1
          ('\n' :: "Entering foreground-only mode (& is now ignored)".toList ++ ['\n']) 52]
      ↔ (b = false ∧ (handler_SIGTSTP b).1 = true)) ∧
    ((handler_SIGTSTP b).2 =
        [Event.write 1 ('\n' :: "Exiting foreground-only mode".toList ++ [' ', '\n']) 32]
      ↔ (b = true ∧ (handler_SIGTSTP b).1 = false)) := by
  refine ⟨?_, ?_⟩
  · intro tbl
    simp [main_signal_setup, sigaction, SIG_IGN_as_int, SIGTSTP, SIGMAX, SIGKILL, SIGSTOP]
  · cases b <;> decide

/-- C16 (code defect): the byte counts passed to `write` are constants that
exceed the lengths of the notices: 52 for the 50 characters of the entering
notice (the terminator and one byte past it are written too), 32 for the 31
characters of the exiting notice (the terminator is written too).  The prompt
is written with `strlen(prompt)`, count 2 for 2 characters. -/
theorem C16_write_counts_exceed_notice_lengths :
    (handler_SIGTSTP false).2 = [Event.write 1 notice_entering 52] ∧
    notice_entering.length = 50 ∧
    (handler_SIGTSTP true).2 = [Event.write 1 notice_exiting 32] ∧
    notice_exiting.length = 31 ∧
    write_counts (handler_SIGTSTP false).2 = [(52, 50)] ∧
    write_counts (handler_SIGTSTP true).2 = [(32, 31)] ∧
    (main_iteration (sample_env "status\n".toList) shell_start).map
      (fun r => write_counts r.2) = some [(2, 2)] := by
  decide

/-! ### The Background Job Table -/

/-- The sweep leaves the count of recorded background children alone. -/
theorem reap_loop_count : ∀ (l : List (Int × Nat)) (c : Commands),
    (reap_loop c l).1.bg_procs_count = c.bg_procs_count := by
  intro l
  induction l with
  | nil => intro c; rfl
  | cons p rest ih =>
    intro c
    obtain ⟨pid, w⟩ := p
    unfold reap_loop
    by_cases hp : pid > 0
    · simp only [if_pos hp]
      rw [ih]
    · simp only [if_neg hp]

/-- Reading a line leaves the count of recorded background children alone. -/
theorem get_user_input_count (mode : Bool) (pid : Int) (stdin : CStr) (c c2 : Commands)
    (h : get_user_input mode pid stdin c = some c2) :
    c2.bg_procs_count = c.bg_procs_count := by
  unfold get_user_input at h
  cases h1 : get_user_input_tokens pid stdin c with
  | none => rw [h1] at h; simp at h
  | some c1 =>
    rw [h1] at h
    simp only at h
    obtain ⟨_, _, _, _, _, _, _, hc, _⟩ := get_user_input_tokens_spec pid stdin c c1 h1
    rw [← hc]
    unfold get_user_input_amp at h
    simp only at h
    split at h
    · simp at h
    · split at h
      · simp at h
      · split at h
        · split at h <;>
          · simp only [Option.some.injEq] at h
            subst h
            rfl
        · simp only [Option.some.injEq] at h
          subst h
          rfl

/-- The end of a pass leaves the count of recorded background children
alone. -/
theorem end_of_iteration_count (env : Env) (c c2 : Commands) (t t2 : List Event)
    (h : end_of_iteration env c t = (Outcome.next c2, t2)) :
    c2.bg_procs_count = c.bg_procs_count := by
  unfold end_of_iteration at h
  simp only [Prod.mk.injEq, Outcome.next.injEq] at h
  rw [← h.1, reap_loop_count]
  rfl

/-- The background part of the parent branch adds at most one entry, and
never goes past the capacity of the table. -/
theorem parent_background_count (env : Env) (pid : Int) (c c2 : Commands) (t : List Event)
    (h : parent_background env pid c = some (c2, t)) :
    c2.bg_procs_count ≤ c.bg_procs_count + 1 ∧
    (c.bg_procs_count ≤ MAX_ARGS → c2.bg_procs_count ≤ MAX_ARGS) := by
  unfold parent_background at h
  split at h
  · split at h
    · rename_i hroom
      simp only [Option.some.injEq, Prod.mk.injEq] at h
      obtain ⟨h1, _⟩ := h
      subst h1
      cases hw : env.wait_bg <;> simp <;> omega
    · simp at h
  · simp only [Option.some.injEq, Prod.mk.injEq] at h
    obtain ⟨h1, _⟩ := h
    subst h1
    exact ⟨by omega, fun hc => hc⟩

/-- The foreground part of the parent branch leaves the count alone. -/
theorem parent_foreground_count (env : Env) (c : Commands) :
    (parent_foreground env c).1.bg_procs_count = c.bg_procs_count := by
  unfold parent_foreground
  split
  · cases hw : env.wait_fg <;> simp only <;> split <;> rfl
  · rfl

/-- One pass of the loop that goes on to the next line adds at most one
entry to the table and stays within its capacity. -/
theorem main_iteration_count (env : Env) (c0 c1 : Commands) (t : List Event)
    (h : main_iteration env c0 = some (Outcome.next c1, t)) :
    c1.bg_procs_count ≤ c0.bg_procs_count + 1 ∧
    (c0.bg_procs_count ≤ MAX_ARGS → c1.bg_procs_count ≤ MAX_ARGS) := by
  unfold main_iteration at h
  cases hget : get_user_input env.foreground_only_mode env.getpid env.stdin (loop_reset c0) with
  | none => simp [hget] at h
  | some c =>
    have hc : c.bg_procs_count = c0.bg_procs_count :=
      get_user_input_count _ _ _ (loop_reset c0) _ hget
    simp only [hget] at h
    cases hd : dispatch c with
    | noop =>
      rw [hd] at h
      simp only [Option.some.injEq] at h
      have := end_of_iteration_count _ _ _ _ _ h
      exact ⟨by omega, fun _ => by omega⟩
    | status =>
      rw [hd] at h
      simp only [Option.some.injEq] at h
      have := end_of_iteration_count _ _ _ _ _ h
      exact ⟨by omega, fun _ => by omega⟩
    | exit =>
      rw [hd] at h
      simp only at h
      split at h
      · simp at h
      · simp at h
    | cd =>
      rw [hd] at h
      simp only at h
      split at h
      · simp at h
      · simp only [Option.some.injEq] at h
        have := end_of_iteration_count _ _ _ _ _ h
        exact ⟨by omega, fun _ => by omega⟩
    | fork =>
      rw [hd] at h
      simp only at h
      split at h
      · split at h
        · simp at h
        · simp at h
      · split at h
        · split at h
          · simp at h
          · split at h <;> simp at h
        · split at h
          · simp at h
          · rename_i bg hbg
            simp only [Option.some.injEq] at h
            have h1 := end_of_iteration_count _ _ _ _ _ h
            have h2 := parent_background_count _ _ _ bg.1 bg.2 hbg
            have h3 := parent_foreground_count env c
            exact ⟨by omega, fun _ => by omega⟩

/-- Along a run of the loop the count grows by at most one per line and
stays within the capacity of the table. -/
theorem run_lines_count : ∀ (envs : List Env) (c c2 : Commands) (t : List Event),
    run_lines envs c = some (c2, t) →
    c2.bg_procs_count ≤ c.bg_procs_count + envs.length ∧
    (c.bg_procs_count ≤ MAX_ARGS → c2.bg_procs_count ≤ MAX_ARGS) := by
  intro envs
  induction envs with
  | nil =>
    intro c c2 t h
    simp only [run_lines, Option.some.injEq, Prod.mk.injEq] at h
    rw [← h.1]
    exact ⟨by simp, fun hc => hc⟩
  | cons env rest ih =>
    intro c c2 t h
    unfold run_lines at h
    split at h
    · rename_i c1 t1 hit
      obtain ⟨h1, h2⟩ := main_iteration_count env c c1 t1 hit
      split at h
      · simp at h
      · rename_i c3 t3 hrest
        simp only [Option.some.injEq, Prod.mk.injEq] at h
        obtain ⟨h3, h4⟩ := ih c1 c3 t3 hrest
        rw [← h.1]
        simp only [List.length_cons]
        exact ⟨by omega, fun hc => h4 (h2 hc)⟩
    · simp at h

set_option maxRecDepth 1000000 in
/-- C15, as stated, fails: the session of 513 lines `sleep 1 &` launches a
background child per line; after 512 of them `bg_procs_count` is 512, which is
not below the capacity `MAX_ARGS`, so the store of the 513th launch at index
512 falls outside the table and the pass has no defined result. -/
theorem C15_counterexample_513th_background_launch :
    (run_lines (List.replicate 512 env_background_launch) shell_start).map
      (fun r => (r.1.bg_procs_count, decide (r.1.bg_procs_count < MAX_ARGS))) =
      some (512, false) ∧
    (run_lines (List.replicate 512 env_background_launch) shell_start).map
      (fun r => (parent_background env_background_launch 100
        { r.1 with is_background_process := 1 }).isSome) = some false ∧
    (run_lines (List.replicate 513 env_background_launch) shell_start).isSome = false := by
  decide

/-- C15 (amended): as long as fewer than `MAX_ARGS` background children are
recorded, a background launch stores the pid of the child at index
`bg_procs_count`, which is below the capacity of the table, changes no other
entry, and raises `bg_procs_count` by one, to at most `MAX_ARGS`; along every
run of the loop from the start of the shell the count is at most the number
of lines read (so below `MAX_ARGS` in a session of fewer than 512 lines) and
never above `MAX_ARGS`. -/
theorem C15_background_store_within_table (env : Env) (pid : Int) (c : Commands)
    (hbg : c.is_background_process = 1) (hroom : c.bg_procs_count < MAX_ARGS) :
    (∃ c2 t, parent_background env pid c = some (c2, t) ∧
      c2.background_processes c.bg_procs_count = pid ∧
      (∀ i, i ≠ c.bg_procs_count → c2.background_processes i = c.background_processes i) ∧
      c2.bg_procs_count = c.bg_procs_count + 1 ∧ c2.bg_procs_count ≤ MAX_ARGS) ∧
    (∀ (envs : List Env) (c3 : Commands) (t : List Event),
      run_lines envs shell_start = some (c3, t) →
      c3.bg_procs_count ≤ envs.length ∧ c3.bg_procs_count ≤ MAX_ARGS) := by
  constructor
  · cases hw : env.wait_bg with
    | none =>
      refine ⟨_, _, by simp only [parent_background, hbg, hroom, if_true, hw]; rfl, ?_, ?_, ?_, ?_⟩
      · simp [setAt_same]
      · intro i hi
        exact setAt_other _ _ _ _ hi
      · rfl
      · simp only; omega
    | some w =>
      refine ⟨_, _, by simp only [parent_background, hbg, hroom, if_true, hw]; rfl, ?_, ?_, ?_, ?_⟩
      · simp [setAt_same]
      · intro i hi
        exact setAt_other _ _ _ _ hi
      · rfl
      · simp only; omega
  · intro envs c3 t h
    obtain ⟨h1, h2⟩ := run_lines_count envs shell_start c3 t h
    have h0 : shell_start.bg_procs_count = 0 := rfl
    rw [h0] at h1 h2
    exact ⟨by omega, h2 (by decide)⟩

/-- C15 (amended), at a concrete input: with the children 200 and 201
recorded, the launch of child 100 stores it at index 2 and makes the
count 3. -/
theorem C15_background_store_within_table_witness :
    ∃ c2 t, parent_background (sample_env []) 100 shell_two_jobs_launching = some (c2, t) ∧
      c2.background_processes 2 = 100 ∧
      c2.background_processes 0 = 200 ∧ c2.background_processes 1 = 201 ∧
      c2.bg_procs_count = 3 := by
  obtain ⟨⟨c2, t, h1, h2, h3, h4, _⟩, _⟩ :=
    C15_background_store_within_table (sample_env []) 100 shell_two_jobs_launching
      rfl (by decide)
  refine ⟨c2, t, h1, h2, ?_, ?_, h4⟩
  · rw [h3 0 (by decide)]; rfl
  · rw [h3 1 (by decide)]; rfl

end SmallBash
